import Mathlib

/-!
# The peer-to-peer core declared in `src/net.h`: a shallow embedding

The embedding follows `src/src/net.h`.  Conventions:

* `unsigned int` / `size_t` values are natural numbers; where the C++ value can wrap the
  reduction `% 2 ^ 32` is written out.
* `int` and `int64_t` values are integers.  An `int` holds the integers from `INT_MIN` to
  `INT_MAX` (32 bits on the targets the code is built for); the reference count, which
  `net.h` itself increments and decrements, is reduced to that range by `wrapInt`, the
  two's complement result those targets produce.
* Types that `net.h` only includes (`CAddress`, `CInv`, `mruset`, `CDataStream`,
  `CMessageHeader`) are type parameters or small structures holding what `net.h` uses.
* Values the code draws from its environment (`insecure_rand()`, the clock, the network
  magic, the hash function) are explicit arguments.
-/

set_option linter.unusedSectionVars false

namespace Neutron

/-! ## Constants and included types -/

/-- One octet of a stream (`char` in `CDataStream`). -/
abbrev Byte := Fin 256

/-- The maximum number of new addresses to accumulate before announcing (`net.h:47`). -/
def MAX_ADDR_TO_SEND : Nat := 1000

/-- Maximum length of incoming protocol messages (`net.h:49`). -/
def MAX_PROTOCOL_MESSAGE_LENGTH : Nat := 2 * 1024 * 1024

/-- The least value of an `int` on the targets the code is built for (32-bit `int`). -/
def INT_MIN : Int := -2147483648

/-- The greatest value of an `int` on the targets the code is built for (32-bit `int`). -/
def INT_MAX : Int := 2147483647

/-- The `int` that an arithmetic result is stored as: the value itself when it lies between
`INT_MIN` and `INT_MAX`, and its 32-bit two's complement reduction otherwise (the result
of an overflowing `++` or `--` on the targets the code is built for). -/
def wrapInt (v : Int) : Int := (v - INT_MIN) % 2 ^ 32 + INT_MIN

/-- The part of `mruset<T>` (`mruset.h`, included by `net.h`) that `CNode` uses: the members
in insertion order, oldest first, and the size bound. -/
structure mruset (T : Type) where
  queue : List T
  nMaxSize : Nat
deriving DecidableEq, Repr

/-- Member function `mruset::count`: 1 when the key is a member, 0 otherwise. -/
def mruset.count {T : Type} [DecidableEq T] (s : mruset T) (k : T) : Nat :=
  if k ∈ s.queue then 1 else 0

/-- Modelled from the spec: `mruset::insert`, which is in `mruset.h` and not in `net.h`.
The spec calls the filter bounded with "LRU-on-overflow semantics": a new key is added and,
when the bound is exceeded, the oldest member is dropped. -/
def mruset.insert {T : Type} [DecidableEq T] (s : mruset T) (k : T) : mruset T :=
  if k ∈ s.queue then s
  else
    let q := s.queue ++ [k]
    if s.nMaxSize ≠ 0 ∧ q.length > s.nMaxSize then { s with queue := q.tail }
    else { s with queue := q }

/-- The part of `CDataStream` (`streams.h`) that `net.h` uses: the bytes and the two
serialization parameters given to the constructor. -/
structure CDataStream where
  vch : List Byte
  nType : Int
  nVersion : Int
deriving DecidableEq, Repr

/-- Constructor `CDataStream(nTypeIn, nVersionIn)`: an empty stream. -/
def CDataStream.new (nTypeIn nVersionIn : Int) : CDataStream :=
  { vch := [], nType := nTypeIn, nVersion := nVersionIn }

/-- Member function `CDataStream::size`. -/
def CDataStream.size (s : CDataStream) : Nat := s.vch.length

/-- Member function `CDataStream::resize(n)`: truncate, or pad with zero bytes. -/
def CDataStream.resize (s : CDataStream) (n : Nat) : CDataStream :=
  { s with vch := s.vch.take n ++ List.replicate (n - s.vch.length) 0 }

/-- Member function `CDataStream::SetVersion`. -/
def CDataStream.SetVersion (s : CDataStream) (nVersionIn : Int) : CDataStream :=
  { s with nVersion := nVersionIn }

/-- Modelled from the spec: `CMessageHeader` is declared in `protocol.h`, which is not in
`src/`.  The fields are those of the 24-byte header of the wire format: 4-byte network
magic, 12-byte NUL-padded command, 4-byte little-endian payload length, 4-byte checksum. -/
structure CMessageHeader where
  pchMessageStart : List Byte
  pchCommand : List Byte
  nMessageSize : Nat
  nChecksum : Nat
deriving DecidableEq, Repr

/-! ## `CNetMessage` (`net.h:604-640`) -/

/-- The data members of `class CNetMessage` (`net.h:606-615`). -/
structure CNetMessage where
  in_data : Bool
  hdrbuf : CDataStream
  hdr : CMessageHeader
  nHdrPos : Nat
  vRecv : CDataStream
  nDataPos : Nat
  nTime : Int
deriving DecidableEq, Repr

/-- Constructor `CNetMessage::CNetMessage(nTypeIn, nVersionIn)` (`net.h:617-623`).  The member `hdr` is
default-constructed by `CMessageHeader()`, which `net.h` does not define: its value is the
argument `hdr0`. -/
def CNetMessage.new (hdr0 : CMessageHeader) (nTypeIn nVersionIn : Int) : CNetMessage :=
  { in_data := false
    hdrbuf := (CDataStream.new nTypeIn nVersionIn).resize 24
    hdr := hdr0
    nHdrPos := 0
    vRecv := CDataStream.new nTypeIn nVersionIn
    nDataPos := 0
    nTime := 0 }

/-- Member function `CNetMessage::complete` (`net.h:625-630`). -/
def CNetMessage.complete (m : CNetMessage) : Bool :=
  if !m.in_data then false
  else m.hdr.nMessageSize == m.nDataPos

/-- Member function `CNetMessage::SetVersion` (`net.h:632-636`). -/
def CNetMessage.SetVersion (m : CNetMessage) (nVersionIn : Int) : CNetMessage :=
  { m with hdrbuf := m.hdrbuf.SetVersion nVersionIn, vRecv := m.vRecv.SetVersion nVersionIn }

/-! ## `CNode` (`net.h:645-1085`) -/

/-- The members of `class CRequestTracker` (`net.h:117-133`): the callback and its parameter, as the
addresses they hold (`none` is `NULL`). -/
structure CRequestTracker where
  fn : Option Nat
  param1 : Option Nat
deriving DecidableEq, Repr

/-- The data members of `class CNode` that are values (sockets, locks and semaphore grants
are left out).  `CAddress`, `CInv` and `CSubNet` come from headers outside `net.h`. -/
structure CNode (CAddress CInv : Type) where
  nServices : Nat
  ssSend : CDataStream
  nSendSize : Nat
  nSendOffset : Nat
  vSendMsg : List (List Byte)
  vRecvGetData : List CInv
  vRecvMsg : List CNetMessage
  nRecvVersion : Int
  nLastSend : Int
  nLastRecv : Int
  nLastSendEmpty : Int
  nTimeConnected : Int
  addr : CAddress
  addrName : String
  nVersion : Int
  fOneShot : Bool
  fClient : Bool
  fInbound : Bool
  fNetworkNode : Bool
  fSuccessfullyConnected : Bool
  fDisconnect : Bool
  fRelayTxes : Bool
  nRefCount : Int
  id : Int
  nMisbehavior : Int
  vecRequestsFulfilled : List String
  mapRequests : List (Nat × CRequestTracker)
  nStartingHeight : Int
  vAddrToSend : List CAddress
  setAddrKnown : mruset CAddress
  fGetAddr : Bool
  setInventoryKnown : mruset CInv
  vInventoryToSend : List CInv

section Peer

variable {CAddress CInv : Type} [DecidableEq CAddress] [DecidableEq CInv]

/-- Member function `CNode::GetId` (`net.h:720-722`). -/
def CNode.GetId (n : CNode CAddress CInv) : Int := n.id

/-- Member function `CNode::GetRefCount` (`net.h:724-728`): `none` when `assert(nRefCount >= 0)` fails. -/
def CNode.GetRefCount (n : CNode CAddress CInv) : Option Int :=
  if 0 ≤ n.nRefCount then some n.nRefCount else none

/-- Member function `CNode::AddRef` (`net.h:750-754`).  The first component is the peer
after the call, the second is the object the returned pointer `this` designates.  The
count is an `int`: `nRefCount++` at `INT_MAX` gives `INT_MIN`. -/
def CNode.AddRef (n : CNode CAddress CInv) : CNode CAddress CInv × CNode CAddress CInv :=
  let this := { n with nRefCount := wrapInt (n.nRefCount + 1) }
  (this, this)

/-- Member function `CNode::Release` (`net.h:756-759`).  There is no guard: the count of a
peer at 0 becomes -1 (and `nRefCount--` at `INT_MIN` gives `INT_MAX`). -/
def CNode.Release (n : CNode CAddress CInv) : CNode CAddress CInv :=
  { n with nRefCount := wrapInt (n.nRefCount - 1) }

/-- Member function `CNode::AddAddressKnown` (`net.h:762-765`). -/
def CNode.AddAddressKnown (n : CNode CAddress CInv) (addr : CAddress) : CNode CAddress CInv :=
  { n with setAddrKnown := n.setAddrKnown.insert addr }

/-- Member function `CNode::PushAddress` (`net.h:767-779`).  `IsValid` is `CAddress::IsValid` and
`insecure_rand` is the value the call `insecure_rand()` returns. -/
def CNode.PushAddress (IsValid : CAddress → Bool) (insecure_rand : Nat)
    (n : CNode CAddress CInv) (addr : CAddress) : CNode CAddress CInv :=
  if IsValid addr && (n.setAddrKnown.count addr == 0) then
    if n.vAddrToSend.length ≥ MAX_ADDR_TO_SEND then
      { n with vAddrToSend := n.vAddrToSend.set (insecure_rand % n.vAddrToSend.length) addr }
    else
      { n with vAddrToSend := n.vAddrToSend ++ [addr] }
  else n

/-- Member function `CNode::AddInventoryKnown` (`net.h:782-788`). -/
def CNode.AddInventoryKnown (n : CNode CAddress CInv) (inv : CInv) : CNode CAddress CInv :=
  { n with setInventoryKnown := n.setInventoryKnown.insert inv }

/-- Member function `CNode::PushInventory` (`net.h:790-797`). -/
def CNode.PushInventory (n : CNode CAddress CInv) (inv : CInv) : CNode CAddress CInv :=
  if n.setInventoryKnown.count inv == 0 then
    { n with vInventoryToSend := n.vInventoryToSend ++ [inv] }
  else n

/-- A run of `PushAddress` calls: each call comes with its address and with the value its
`insecure_rand()` draws. -/
def CNode.PushAddresses (IsValid : CAddress → Bool) (n : CNode CAddress CInv) :
    List (CAddress × Nat) → CNode CAddress CInv
  | [] => n
  | (addr, r) :: rest => CNode.PushAddresses IsValid (n.PushAddress IsValid r addr) rest

/-- A call on the reference count of a peer. -/
inductive RefCall where
  | addRef
  | release
deriving DecidableEq, Repr

/-- The peer after one reference-count call. -/
def CNode.refCall (n : CNode CAddress CInv) : RefCall → CNode CAddress CInv
  | .addRef => n.AddRef.1
  | .release => n.Release

/-- The peer after a sequence of reference-count calls, first call first. -/
def CNode.refCalls (n : CNode CAddress CInv) : List RefCall → CNode CAddress CInv
  | [] => n
  | c :: rest => CNode.refCalls (n.refCall c) rest

/-- No call of the sequence overflows the `int` count: every `AddRef` is called on a count
below `INT_MAX` and every `Release` on a count above `INT_MIN`. -/
def CNode.noOverflow (n : CNode CAddress CInv) : List RefCall → Prop
  | [] => True
  | c :: rest =>
    (c = .addRef → n.nRefCount < INT_MAX) ∧ (c = .release → INT_MIN < n.nRefCount) ∧
    CNode.noOverflow (n.refCall c) rest

end Peer

/-! ## Message framer: `CNetMessage::readHeader`, `CNetMessage::readData`,
`CNode::ReceiveMsgBytes`

`net.h` declares the three functions (lines 638, 639, 740); their bodies are in `net.cpp`,
which is not part of `src/`.  They are modelled from the framer state machine of the spec
on the data members that `net.h` declares. -/

/-- What the framer takes from its environment: the network magic (`pchMessageStart`, a
"configurable constant"), the double SHA-256 of a payload read as a little-endian number,
the value of a default-constructed `CMessageHeader`, and the constant `SER_NETWORK` of
`serialize.h`. -/
structure NetParams where
  pchMessageStart : List Byte
  Hash : List Byte → Nat
  hdr0 : CMessageHeader
  SER_NETWORK : Int

/-- Modelled from the spec: the serialization of a `uint32`, absent from `src/`; the wire
format stores the payload length as "uint32 LE". -/
def WriteLE32 (n : Nat) : List Byte :=
  [⟨n % 256, Nat.mod_lt _ (by decide)⟩, ⟨n / 256 % 256, Nat.mod_lt _ (by decide)⟩,
   ⟨n / 65536 % 256, Nat.mod_lt _ (by decide)⟩, ⟨n / 16777216 % 256, Nat.mod_lt _ (by decide)⟩]

/-- Modelled from the spec: reading a little-endian `uint32`, absent from `src/`. -/
def ReadLE32 (b : List Byte) : Nat :=
  (b.getD 0 0).val + 256 * (b.getD 1 0).val + 65536 * (b.getD 2 0).val
    + 16777216 * (b.getD 3 0).val

/-- Modelled from the spec: the checksum of a payload, "first 4 bytes of
SHA256(SHA256(payload))", as the `uint32` they spell. -/
def NetParams.checksum (P : NetParams) (payload : List Byte) : Nat :=
  P.Hash payload % 2 ^ 32

/-- Modelled from the spec: `CMessageHeader` serialization (`protocol.h`, absent), the
layout "offset 0 magic, 4 command, 16 payload length, 20 checksum". -/
def CMessageHeader.Serialize (h : CMessageHeader) : List Byte :=
  h.pchMessageStart ++ h.pchCommand ++ WriteLE32 h.nMessageSize ++ WriteLE32 h.nChecksum

/-- Modelled from the spec: `hdrbuf >> hdr`, the inverse of the layout above on a 24-byte
buffer (`protocol.h`, absent). -/
def CMessageHeader.Unserialize (buf : List Byte) : CMessageHeader :=
  { pchMessageStart := buf.take 4
    pchCommand := (buf.drop 4).take 12
    nMessageSize := ReadLE32 ((buf.drop 16).take 4)
    nChecksum := ReadLE32 ((buf.drop 20).take 4) }

/-- The effect of `memcpy(&buf[pos], src, src.size())` on a byte vector. -/
def memcpyAt (buf : List Byte) (pos : Nat) (src : List Byte) : List Byte :=
  buf.take pos ++ src ++ buf.drop (pos + src.length)

/-- Modelled from the spec: the step "append to header buffer" of `readHeader` (body
absent), a copy of `src` into the 24-byte buffer at `nHdrPos`, which advances. -/
def CNetMessage.hdrCopy (m : CNetMessage) (src : List Byte) : CNetMessage :=
  { m with hdrbuf := { m.hdrbuf with vch := memcpyAt m.hdrbuf.vch m.nHdrPos src }
           nHdrPos := m.nHdrPos + src.length }

/-- Modelled from the spec: what `readHeader` does with a full header buffer: "validate
magic, parse command, length (≤ 2 MiB), checksum → ReadData".  The flag is false on
"magic mismatch or oversize length". -/
def CNetMessage.hdrParse (P : NetParams) (m : CNetMessage) : CNetMessage × Bool :=
  let m2 : CNetMessage := { m with hdr := CMessageHeader.Unserialize m.hdrbuf.vch }
  if m2.hdr.pchMessageStart ≠ P.pchMessageStart then (m2, false)
  else if m2.hdr.nMessageSize > MAX_PROTOCOL_MESSAGE_LENGTH then (m2, false)
  else ({ m2 with in_data := true }, true)

/-- Modelled from the spec: `CNetMessage::readHeader` (declared `net.h:638`, body absent).
Row ReadHeader of the framer table: take "up to 24 − hdrPos bytes", put them in the header
buffer at `nHdrPos`; "if complete: validate magic, parse command, length (≤ 2 MiB),
checksum → ReadData; else stay".  The second component is the number of bytes consumed,
`none` for the negative return on "magic mismatch or oversize length". -/
def CNetMessage.readHeader (P : NetParams) (m : CNetMessage) (pch : List Byte) :
    CNetMessage × Option Nat :=
  let nRemaining := 24 - m.nHdrPos
  let nCopy := min nRemaining pch.length
  let m1 := m.hdrCopy (pch.take nCopy)
  if m1.nHdrPos < 24 then (m1, some nCopy)
  else ((m1.hdrParse P).1, if (m1.hdrParse P).2 then some nCopy else none)

/-- Modelled from the spec: the step "append to data buffer" of `readData` (body absent),
after which `nDataPos` has advanced by the bytes taken. -/
def CNetMessage.dataCopy (m : CNetMessage) (src : List Byte) : CNetMessage :=
  { m with vRecv := { m.vRecv with vch := m.vRecv.vch ++ src }
           nDataPos := m.nDataPos + src.length }

/-- Modelled from the spec: `CNetMessage::readData` (declared `net.h:639`, body absent).
Row ReadData of the framer table: take "up to hdr.size − dataPos bytes" and "append to data
buffer". -/
def CNetMessage.readData (m : CNetMessage) (pch : List Byte) : CNetMessage × Option Nat :=
  let nRemaining := m.hdr.nMessageSize - m.nDataPos
  let nCopy := min nRemaining pch.length
  (m.dataCopy (pch.take nCopy), some nCopy)

/-- The current message after it has taken all of `src`: the copy into the header buffer in
the ReadHeader state, into the data buffer in the ReadData state. -/
def CNetMessage.copy (m : CNetMessage) (src : List Byte) : CNetMessage :=
  if m.in_data then m.dataCopy src else m.hdrCopy src

/-- Modelled from the spec: the call the loop of `ReceiveMsgBytes` (body absent) makes on
the current message, `readHeader` in the ReadHeader state and `readData` in the ReadData
state. -/
def CNetMessage.absorb (P : NetParams) (m : CNetMessage) (pch : List Byte) :
    CNetMessage × Option Nat :=
  if !m.in_data then m.readHeader P pch else m.readData pch

/-- The number of bytes a message still takes in its state: "24 − hdrPos" or
"hdr.size − dataPos". -/
def CNetMessage.room (m : CNetMessage) : Nat :=
  if m.in_data then m.hdr.nMessageSize - m.nDataPos else 24 - m.nHdrPos

/-- An in-progress message as the framer builds it: in the ReadHeader state the 24-byte
header buffer is not full and no payload byte is counted; in the ReadData state the payload
is not full. -/
def CNetMessage.inProgress (m : CNetMessage) : Prop :=
  (m.in_data = false → m.nHdrPos < 24 ∧ m.hdrbuf.vch.length = 24 ∧ m.nDataPos = 0) ∧
  (m.in_data = true → m.nDataPos < m.hdr.nMessageSize)

/-- Modelled from the spec: the message the loop of `ReceiveMsgBytes` (body absent) works
on, the back of the receive queue when it is in progress ("at most one in-progress framed
message at its tail"), a new `CNetMessage` in the ReadHeader state otherwise.  The first
component is the queue without that message. -/
def recvCurrent (P : NetParams) (nRecvVersion : Int) (q : List CNetMessage) :
    List CNetMessage × CNetMessage :=
  match q.getLast? with
  | none => (q, CNetMessage.new P.hdr0 P.SER_NETWORK nRecvVersion)
  | some m =>
    if m.complete then (q, CNetMessage.new P.hdr0 P.SER_NETWORK nRecvVersion)
    else (q.dropLast, m)

/-- The receive queue as the framer keeps it: "at most one in-progress framed message at
its tail; all earlier entries are complete" (stated for the entry before the current
message, which is what the framer relies on). -/
def recvQueueOk (P : NetParams) (nRecvVersion : Int) (q : List CNetMessage) : Prop :=
  (recvCurrent P nRecvVersion q).2.inProgress ∧
  ∀ m, (recvCurrent P nRecvVersion q).1.getLast? = some m → m.complete = true

/-- Modelled from the spec: the receive queue after the current message `m` has absorbed
bytes in `ReceiveMsgBytes` (body absent): "if complete: verify checksum", where a
mismatch drops the message; any other message is at the back of the queue. -/
def recvStore (P : NetParams) (earlier : List CNetMessage) (m : CNetMessage) :
    List CNetMessage :=
  if m.complete && (m.hdr.nChecksum != P.checksum m.vRecv.vch) then earlier
  else earlier ++ [m]

/-- Modelled from the spec: one turn of the loop of `CNode::ReceiveMsgBytes` on the receive
queue, for pending input `pch`.  The current message absorbs bytes through `readHeader` or
`readData` according to its state; a completed message whose checksum does not match is
dropped ("checksum mismatch → drop the message and continue at ReadHeader"), any other
stays in the queue, where a completed one is followed by a new ReadHeader state.  The
second component is the number of bytes consumed, `none` on a fatal header. -/
def recvStep (P : NetParams) (nRecvVersion : Int) (q : List CNetMessage) (pch : List Byte) :
    List CNetMessage × Option Nat :=
  let cur := recvCurrent P nRecvVersion q
  let r := cur.2.absorb P pch
  match r.2 with
  | none => (cur.1 ++ [r.1], none)
  | some handled => (recvStore P cur.1 r.1, some handled)

/-- Modelled from the spec: the loop `while (nBytes > 0)` of `CNode::ReceiveMsgBytes`, with
a bound on the number of turns.  `some (ok, q)` is the returned flag and the receive queue;
`none` means the bound was reached with input left. -/
def recvLoop (P : NetParams) (nRecvVersion : Int) :
    Nat → List CNetMessage → List Byte → Option (Bool × List CNetMessage)
  | _, q, [] => some (true, q)
  | 0, _, _ :: _ => none
  | fuel + 1, q, b :: rest =>
    match recvStep P nRecvVersion q (b :: rest) with
    | (q1, none) => some (false, q1)
    | (q1, some handled) => recvLoop P nRecvVersion fuel q1 ((b :: rest).drop handled)

section Peer

variable {CAddress CInv : Type}

/-- Modelled from the spec: `CNode::ReceiveMsgBytes(pch, nBytes)` (declared `net.h:740`, body
absent): "the framer never blocks; it consumes whatever bytes the reader supplied"; on a
fatal header it returns false and the peer is marked for disconnect.  Every turn of the loop
consumes at least one byte on a queue the framer built, so `nBytes` turns suffice; `none`
stands for a call that does not return. -/
def CNode.ReceiveMsgBytes (P : NetParams) (n : CNode CAddress CInv) (pch : List Byte) :
    Option (Bool × CNode CAddress CInv) :=
  match recvLoop P n.nRecvVersion pch.length n.vRecvMsg pch with
  | none => none
  | some (true, q) => some (true, { n with vRecvMsg := q })
  | some (false, q) => some (false, { n with vRecvMsg := q, fDisconnect := true })

/-- Feeding chunks in order to `ReceiveMsgBytes`, as the socket worker does with the reads
of one peer; it stops at the first chunk on which the call fails. -/
def CNode.ReceiveChunks (P : NetParams) (n : CNode CAddress CInv) :
    List (List Byte) → Option (Bool × CNode CAddress CInv)
  | [] => some (true, n)
  | c :: rest =>
    match n.ReceiveMsgBytes P c with
    | some (true, n1) => CNode.ReceiveChunks P n1 rest
    | r => r

end Peer

/-- A message as the sender hands it to the encoder: command name and payload. -/
structure WireMessage where
  command : List Byte
  payload : List Byte
deriving DecidableEq, Repr

/-- The command name "NUL-padded" to 12 bytes. -/
def WireMessage.pchCommand (w : WireMessage) : List Byte :=
  w.command ++ List.replicate (12 - w.command.length) 0

/-- Modelled from the spec: the header the "symmetrical encoder" writes for a message. -/
def WireMessage.header (P : NetParams) (w : WireMessage) : CMessageHeader :=
  { pchMessageStart := P.pchMessageStart
    pchCommand := w.pchCommand
    nMessageSize := w.payload.length
    nChecksum := P.checksum w.payload }

/-- Modelled from the spec: a framed message on the wire, the 24-byte header followed by
the payload. -/
def WireMessage.encode (P : NetParams) (w : WireMessage) : List Byte :=
  (w.header P).Serialize ++ w.payload

/-- A message that can be framed: the command fits its 12-byte field and the payload is at
most 2 MiB. -/
def WireMessage.valid (w : WireMessage) : Prop :=
  w.command.length ≤ 12 ∧ w.payload.length ≤ MAX_PROTOCOL_MESSAGE_LENGTH

/-- A stream of framed messages. -/
def wireStream (P : NetParams) (ws : List WireMessage) : List Byte :=
  (ws.map (WireMessage.encode P)).flatten

/-- The complete receive-queue entry that holds the message `w`. -/
def CNetMessage.ofWire (P : NetParams) (nRecvVersion : Int) (w : WireMessage) : CNetMessage :=
  { in_data := true
    hdrbuf := { vch := (w.header P).Serialize, nType := P.SER_NETWORK, nVersion := nRecvVersion }
    hdr := w.header P
    nHdrPos := 24
    vRecv := { vch := w.payload, nType := P.SER_NETWORK, nVersion := nRecvVersion }
    nDataPos := w.payload.length
    nTime := 0 }

/-- The entry after the header of `w` has been read: ReadData state, no payload byte yet. -/
def CNetMessage.ofWireHeader (P : NetParams) (nRecvVersion : Int) (w : WireMessage) :
    CNetMessage :=
  { in_data := true
    hdrbuf := { vch := (w.header P).Serialize, nType := P.SER_NETWORK, nVersion := nRecvVersion }
    hdr := w.header P
    nHdrPos := 24
    vRecv := { vch := [], nType := P.SER_NETWORK, nVersion := nRecvVersion }
    nDataPos := 0
    nTime := 0 }

/-- The command and payload a receive-queue entry holds. -/
def CNetMessage.toWire (m : CNetMessage) : List Byte × List Byte :=
  (m.hdr.pchCommand, m.vRecv.vch)

/-- The message of the framer round-trip scenario: command "ping", payload 01 02 .. 08. -/
def pingMessage : WireMessage :=
  { command := [0x70, 0x69, 0x6e, 0x67], payload := [1, 2, 3, 4, 5, 6, 7, 8] }

/-- Parameters for concrete evaluations: the magic F9 BE B4 D9 of the scenario, and a
stand-in for the hash (the byte sum), since SHA-256 is outside `net.h`. -/
def NetParams.sample : NetParams :=
  { pchMessageStart := [0xF9, 0xBE, 0xB4, 0xD9]
    Hash := fun bytes => (bytes.map Fin.val).sum
    hdr0 := { pchMessageStart := [0xF9, 0xBE, 0xB4, 0xD9], pchCommand := List.replicate 12 0,
              nMessageSize := 4294967295, nChecksum := 0 }
    SER_NETWORK := 1 }

/-! ## Ban list: `CConnman::Ban`, `IsBanned`, `ClearBanned`, and `CNode::Misbehaving`

`net.h` declares these functions (lines 385-393, 1082) and the map type `banmap_t`; the
bodies are in `net.cpp`, which is not part of `src/`.  They are modelled from the "Ban
list" section of the spec. -/

/-- What the ban list takes from `netaddress.h` (absent from `src/`): `CSubNet::Match`, the
constructor `CSubNet(const CNetAddr&)` of the subnet that holds one address, and the
conversion of a `CAddress` to its base class `CNetAddr`. -/
structure NetAddrOps (CAddress CNetAddr CSubNet : Type) where
  Match : CSubNet → CNetAddr → Bool
  toSubNet : CNetAddr → CSubNet
  toNetAddr : CAddress → CNetAddr

/-- The map type `typedef std::map<CSubNet, int64_t> banmap_t` (`net.h:68`): the entries of the map,
at most one per key when built by `banmap_t.assign`. -/
abbrev banmap_t (CSubNet : Type) := List (CSubNet × Int)

/-- The library call `map.erase(key)`. -/
def banmap_t.erase {CSubNet : Type} [DecidableEq CSubNet] (m : banmap_t CSubNet)
    (key : CSubNet) : banmap_t CSubNet :=
  m.filter (fun e => decide (e.1 ≠ key))

/-- The library call `map[key] = value`. -/
def banmap_t.assign {CSubNet : Type} [DecidableEq CSubNet] (m : banmap_t CSubNet)
    (key : CSubNet) (value : Int) : banmap_t CSubNet :=
  (key, value) :: banmap_t.erase m key

/-- The data members of `class CConnman` (`net.h:524-557`) that are values. -/
structure CConnman (CSubNet : Type) where
  setBanned : banmap_t CSubNet
  setBannedIsDirty : Bool
  fAddressesInitialized : Bool
  nMaxConnections : Int
  nMaxOutbound : Int
  nMaxAddnode : Int
  nMaxFeeler : Int
  nSeed0 : Nat
  nSeed1 : Nat

section BanList

variable {CAddress CNetAddr CSubNet CInv : Type} [DecidableEq CSubNet]

/-- Modelled from the spec: `CConnman::Ban(const CSubNet&, bantimeoffset)` (declared
`net.h:386`, body absent): "sets expiry = now + offset, marks dirty".  `now` is the clock. -/
def CConnman.BanSubNet (now : Int) (c : CConnman CSubNet) (subNet : CSubNet)
    (bantimeoffset : Int) : CConnman CSubNet :=
  { c with setBanned := c.setBanned.assign subNet (now + bantimeoffset)
           setBannedIsDirty := true }

/-- Modelled from the spec: `CConnman::Ban(const CNetAddr&, bantimeoffset)` (declared
`net.h:385`, body absent): the ban of the subnet that holds the one address. -/
def CConnman.Ban (ops : NetAddrOps CAddress CNetAddr CSubNet) (now : Int)
    (c : CConnman CSubNet) (addr : CNetAddr) (bantimeoffset : Int) : CConnman CSubNet :=
  c.BanSubNet now (ops.toSubNet addr) bantimeoffset

/-- Modelled from the spec: `CConnman::ClearBanned` (declared `net.h:387`, body absent). -/
def CConnman.ClearBanned (c : CConnman CSubNet) : CConnman CSubNet :=
  { c with setBanned := [], setBannedIsDirty := true }

/-- Modelled from the spec: `CConnman::IsBanned(CNetAddr)` (declared `net.h:388`, body
absent): "returns true iff any entry covers addr with expiry > now". -/
def CConnman.IsBanned (ops : NetAddrOps CAddress CNetAddr CSubNet) (now : Int)
    (c : CConnman CSubNet) (ip : CNetAddr) : Bool :=
  c.setBanned.any (fun e => ops.Match e.1 ip && decide (e.2 > now))

/-- Modelled from the spec: `CConnman::IsBanned(CSubNet)` (declared `net.h:389`, body
absent): the entry of that very subnet has expiry > now. -/
def CConnman.IsBannedSubNet (now : Int) (c : CConnman CSubNet) (subnet : CSubNet) : Bool :=
  c.setBanned.any (fun e => decide (e.1 = subnet) && decide (e.2 > now))

/-- Modelled from the spec: `CConnman::SweepBanned` (declared `net.h:490`, body absent):
"on sweep, entries with expiry ≤ now are removed and the dirty flag is set". -/
def CConnman.SweepBanned (now : Int) (c : CConnman CSubNet) : CConnman CSubNet :=
  { c with setBanned := c.setBanned.filter (fun e => decide (e.2 > now))
           setBannedIsDirty := true }

/-- Modelled from the spec: `CConnman::GetBanned` (declared `net.h:392`, body absent). -/
def CConnman.GetBanned (c : CConnman CSubNet) : banmap_t CSubNet := c.setBanned

/-- Modelled from the spec: `CConnman::SetBanned` (declared `net.h:393`, body absent). -/
def CConnman.SetBanned (c : CConnman CSubNet) (banmap : banmap_t CSubNet) : CConnman CSubNet :=
  { c with setBanned := banmap, setBannedIsDirty := true }

/-- The ban time of the automatic ban: 24 hours, in seconds. -/
def DEFAULT_MISBEHAVING_BANTIME : Int := 60 * 60 * 24

/-- Modelled from the spec: `CNode::Misbehaving(howmuch)` (declared `net.h:1082`, body
absent): "adds to score; reaching 100 marks for disconnect and bans the remote", the ban
being the "automatic 24h subnet ban".  The result is the returned flag, the peer and the
connection manager that holds the ban list. -/
def CNode.Misbehaving (ops : NetAddrOps CAddress CNetAddr CSubNet) (now : Int)
    (c : CConnman CSubNet) (n : CNode CAddress CInv) (howmuch : Int) :
    Bool × CNode CAddress CInv × CConnman CSubNet :=
  let n1 : CNode CAddress CInv := { n with nMisbehavior := n.nMisbehavior + howmuch }
  if n1.nMisbehavior ≥ 100 then
    (true, { n1 with fDisconnect := true },
      c.Ban ops now (ops.toNetAddr n.addr) DEFAULT_MISBEHAVING_BANTIME)
  else (false, n1, c)

end BanList

/-- Concrete addresses for evaluations: an address is a number, a subnet is a range of
numbers given by its two ends, and it matches the addresses in the range. -/
def NetAddrOps.sample : NetAddrOps Nat Nat (Nat × Nat) :=
  { Match := fun s a => decide (s.1 ≤ a ∧ a ≤ s.2)
    toSubNet := fun a => (a, a)
    toNetAddr := fun a => a }

/-- A connection manager with an empty ban list. -/
def CConnman.sample : CConnman (Nat × Nat) :=
  { setBanned := [], setBannedIsDirty := false, fAddressesInitialized := false,
    nMaxConnections := 0, nMaxOutbound := 0, nMaxAddnode := 0, nMaxFeeler := 0,
    nSeed0 := 0, nSeed1 := 0 }

/-- A peer with empty queues and zero counters, for concrete evaluations. -/
def CNode.sample : CNode Nat Nat :=
  { nServices := 0, ssSend := CDataStream.new 0 0, nSendSize := 0, nSendOffset := 0,
    vSendMsg := [], vRecvGetData := [], vRecvMsg := [], nRecvVersion := 0, nLastSend := 0,
    nLastRecv := 0, nLastSendEmpty := 0, nTimeConnected := 0, addr := 0, addrName := "",
    nVersion := 0, fOneShot := false, fClient := false, fInbound := false,
    fNetworkNode := false, fSuccessfullyConnected := false, fDisconnect := false,
    fRelayTxes := false, nRefCount := 0, id := 0, nMisbehavior := 0,
    vecRequestsFulfilled := [], mapRequests := [], nStartingHeight := 0, vAddrToSend := [],
    setAddrKnown := { queue := [], nMaxSize := 5000 }, fGetAddr := false,
    setInventoryKnown := { queue := [], nMaxSize := 1000 }, vInventoryToSend := [] }

/-- A peer whose send list is full: 1000 entries. -/
def CNode.sampleFull : CNode Nat Nat :=
  { CNode.sample with vAddrToSend := List.replicate 1000 0 }

/-! ## Buffer sizes, peer ids and slot budgets (`net.h:50-66`, `81`, `187-201`) -/

/-- Maximum number of automatic outgoing nodes (`net.h:51`). -/
def MAX_OUTBOUND_CONNECTIONS : Int := 64

/-- Maximum number of addnode outgoing nodes (`net.h:53`). -/
def MAX_ADDNODE_CONNECTIONS : Int := 8

/-- The conversion of an `int64_t` to `unsigned int`: reduction modulo `2 ^ 32`. -/
def toUnsignedInt (v : Int) : Nat := (v % 2 ^ 32).toNat

/-- The function `ReceiveFloodSize` (`net.h:65`).  `GetArg` is the option reader of `util.h`,
which is outside `net.h`: `GetArg name dflt` is the `int64_t` it returns. -/
def ReceiveFloodSize (GetArg : String → Int → Int) : Nat :=
  toUnsignedInt (1000 * GetArg "-maxreceivebuffer" (5 * 1000))

/-- The function `SendBufferSize` (`net.h:66`), with `GetArg` as in `ReceiveFloodSize`. -/
def SendBufferSize (GetArg : String → Int → Int) : Nat :=
  toUnsignedInt (1000 * GetArg "-maxsendbuffer" (1 * 1000))

/-- Modelled from the spec: the option reader `GetArg` of `util.h` (absent from `src/`) on
a table of the options that were given: the value of the option when it is given, "the
defaults ... when the option is not given". -/
def GetArgOf (mapArgs : List (String × Int)) (strArg : String) (nDefault : Int) : Int :=
  (mapArgs.lookup strArg).getD nDefault

/-- The values of the type `NodeId`, which is `typedef int NodeId` (`net.h:81`): the
integers an `int` holds. -/
def NodeId.holds (v : Int) : Prop := INT_MIN ≤ v ∧ v ≤ INT_MAX

/-- The members of `struct CConnman::Options` (`net.h:187-201`); the default member
initializers are those of the source, all zero. -/
structure CConnman.Options where
  nMaxConnections : Int := 0
  nMaxOutbound : Int := 0
  nMaxAddnode : Int := 0
  nMaxFeeler : Int := 0
  nBestHeight : Int := 0
  nSendBufferMaxSize : Nat := 0
  nReceiveFloodSize : Nat := 0
  nMaxOutboundTimeframe : Nat := 0
  nMaxOutboundLimit : Nat := 0
deriving DecidableEq, Repr

/-- A default-constructed `CConnman::Options`, as in `CConnman::Options connOptions;`. -/
def CConnman.Options.default : CConnman.Options := {}

section Peer

variable {CAddress CInv : Type}

/-- Member function `CNode::GetTotalRecvSize` (`net.h:731-737`).  `total` is an
`unsigned int`, so every `total += msg.vRecv.size() + 24` is reduced modulo `2 ^ 32`.  The
second component is the peer after the call. -/
def CNode.GetTotalRecvSize (n : CNode CAddress CInv) : Nat × CNode CAddress CInv :=
  (n.vRecvMsg.foldl (fun total msg => (total + (msg.vRecv.size + 24)) % 2 ^ 32) 0, n)

end Peer

/-! ## `CNode::PushMessage`, `CNode::PushRequest` (`net.h:813-1030`) and the
fulfilled-request list (`net.h:1033-1058`) -/

/-- A call that `PushMessage` makes, for the record of calls: `BeginMessage(pszCommand)`,
the serialization `ssSend << a` of one argument, `EndMessage()`, `AbortMessage()`. -/
inductive MsgCall (A : Type) where
  | BeginMessage (pszCommand : String)
  | Serialize (a : A)
  | EndMessage
  | AbortMessage
deriving DecidableEq, Repr

/-- The functions `PushMessage` calls and `net.h` only declares (`BeginMessage`,
`EndMessage`, `AbortMessage`, lines 802-808) or takes from `serialize.h` (`ssSend << a`).
Each acts on the peer state `σ`; the first three give the state they leave and the
exception they throw, if any.  `AbortMessage` is the clean-up of the handler and returns
normally. -/
structure MsgEnv (σ E A : Type) where
  BeginMessage : String → σ → σ × Option E
  Serialize : A → σ → σ × Option E
  EndMessage : σ → σ × Option E
  AbortMessage : σ → σ

/-- The outcome of a piece of code: the calls it made in order, the state it left, and the
exception that leaves it, if any. -/
structure MsgRun (σ E A : Type) where
  calls : List (MsgCall A)
  state : σ
  thrown : Option E

/-- The statement `ssSend << a1 << ... << an;`: the arguments are serialized from left to
right and the first exception ends the statement. -/
def serializeArgs {σ E A : Type} (env : MsgEnv σ E A) : List A → σ → MsgRun σ E A
  | [], s => { calls := [], state := s, thrown := none }
  | a :: rest, s =>
    match env.Serialize a s with
    | (s1, some e) => { calls := [MsgCall.Serialize a], state := s1, thrown := some e }
    | (s1, none) =>
      let r := serializeArgs env rest s1
      { calls := MsgCall.Serialize a :: r.calls, state := r.state, thrown := r.thrown }

/-- The `try` block of `PushMessage`: `BeginMessage(pszCommand); ssSend << a1 << ... << an;
EndMessage();`, left by the first exception. -/
def pushMessageTry {σ E A : Type} (env : MsgEnv σ E A) (pszCommand : String) (args : List A)
    (s : σ) : MsgRun σ E A :=
  match env.BeginMessage pszCommand s with
  | (s1, some e) =>
    { calls := [MsgCall.BeginMessage pszCommand], state := s1, thrown := some e }
  | (s1, none) =>
    let r := serializeArgs env args s1
    match r.thrown with
    | some e =>
      { calls := MsgCall.BeginMessage pszCommand :: r.calls, state := r.state, thrown := some e }
    | none =>
      { calls := MsgCall.BeginMessage pszCommand :: r.calls ++ [MsgCall.EndMessage]
        state := (env.EndMessage r.state).1
        thrown := (env.EndMessage r.state).2 }

section Peer

variable {CAddress CInv E A : Type}

/-- Member function `CNode::PushMessage` (`net.h:813-969`, `1016-1030`), all overloads at
once: `args` are the arguments `a1 .. an` (n from 0 to 10 in the source).  The `try` block
runs; `catch (...)` calls `AbortMessage()` and rethrows the exception it caught. -/
def CNode.PushMessage (env : MsgEnv (CNode CAddress CInv) E A) (n : CNode CAddress CInv)
    (pszCommand : String) (args : List A) : MsgRun (CNode CAddress CInv) E A :=
  let r := pushMessageTry env pszCommand args n
  match r.thrown with
  | none => r
  | some e =>
    { calls := r.calls ++ [MsgCall.AbortMessage]
      state := env.AbortMessage r.state
      thrown := some e }

end Peer

/-- Constructor `CRequestTracker(fnIn, param1In)` (`net.h:123-127`). -/
def CRequestTracker.new (fnIn param1In : Option Nat) : CRequestTracker :=
  { fn := fnIn, param1 := param1In }

/-- Member function `CRequestTracker::IsNull` (`net.h:129-132`). -/
def CRequestTracker.IsNull (t : CRequestTracker) : Bool :=
  t.fn == none

/-- The library call `mapRequests[key] = value` on `std::map<uint256, CRequestTracker>`: the
entry of the key is replaced or added. -/
def mapRequestsAssign (m : List (Nat × CRequestTracker)) (key : Nat)
    (value : CRequestTracker) : List (Nat × CRequestTracker) :=
  (key, value) :: m.filter (fun e => decide (e.1 ≠ key))

/-- The library call `mapRequests.find(key)`: the value stored for the key, if any. -/
def mapRequestsFind (m : List (Nat × CRequestTracker)) (key : Nat) : Option CRequestTracker :=
  (m.find? (fun e => decide (e.1 = key))).map Prod.snd

/-- The loop of `CNode::HasFulfilledRequest` (`net.h:1035-1039`) on the entries still to
visit. -/
def hasRequestLoop : List String → String → Bool
  | [], _ => false
  | type :: rest, strRequest => if type == strRequest then true else hasRequestLoop rest strRequest

/-- The loop of `CNode::ClearFulfilledRequest` (`net.h:1044-1051`) on the entries from the
iterator on: the first entry equal to the request is erased and the function returns. -/
def clearRequestLoop : List String → String → List String
  | [], _ => []
  | type :: rest, strRequest =>
    if type == strRequest then rest else type :: clearRequestLoop rest strRequest

section Peer

variable {CAddress CInv E A : Type}

/-- The first two statements of `CNode::PushRequest` (`net.h:975-981`): `hashReply` holds
the 256 bits that `RAND_bytes` drew, and `mapRequests[hashReply] = CRequestTracker(fn,
param1)`. -/
def CNode.storeRequest (n : CNode CAddress CInv) (hashReply : Nat) (fn param1 : Option Nat) :
    CNode CAddress CInv :=
  let tracker := CRequestTracker.new fn param1
  { n with mapRequests := mapRequestsAssign n.mapRequests hashReply tracker }

/-- Member function `CNode::PushRequest` (`net.h:972-1014`), all overloads at once: `args`
are the arguments `a1 .. an` (n from 0 to 2 in the source) and `hashReply` is the value
drawn by `RAND_bytes`.  The message has the arguments `hashReply, a1, .., an`, where
`Sum.inl` marks the `uint256` and `Sum.inr` an argument of the caller. -/
def CNode.PushRequest (env : MsgEnv (CNode CAddress CInv) E (Nat ⊕ A)) (hashReply : Nat)
    (n : CNode CAddress CInv) (pszCommand : String) (args : List A)
    (fn param1 : Option Nat) : MsgRun (CNode CAddress CInv) E (Nat ⊕ A) :=
  (n.storeRequest hashReply fn param1).PushMessage env pszCommand
    (Sum.inl hashReply :: args.map Sum.inr)

/-- Member function `CNode::HasFulfilledRequest` (`net.h:1033-1040`). -/
def CNode.HasFulfilledRequest (n : CNode CAddress CInv) (strRequest : String) : Bool :=
  hasRequestLoop n.vecRequestsFulfilled strRequest

/-- Member function `CNode::ClearFulfilledRequest` (`net.h:1042-1052`). -/
def CNode.ClearFulfilledRequest (n : CNode CAddress CInv) (strRequest : String) :
    CNode CAddress CInv :=
  { n with vecRequestsFulfilled := clearRequestLoop n.vecRequestsFulfilled strRequest }

/-- Member function `CNode::FulfilledRequest` (`net.h:1054-1058`). -/
def CNode.FulfilledRequest (n : CNode CAddress CInv) (strRequest : String) :
    CNode CAddress CInv :=
  if n.HasFulfilledRequest strRequest then n
  else { n with vecRequestsFulfilled := n.vecRequestsFulfilled ++ [strRequest] }

end Peer

/-- A message environment for concrete evaluations on `CNode.sample`-like peers: every call
returns normally except the serialization of the argument 0 of the caller, which throws
the exception 7; `BeginMessage` and `EndMessage` leave the peer as it is and `AbortMessage`
sets `nSendSize` to 0. -/
def MsgEnv.sample : MsgEnv (CNode Nat Nat) Nat (Nat ⊕ Nat) :=
  { BeginMessage := fun _ s => (s, none)
    Serialize := fun a s => (s, if a = Sum.inr 0 then some 7 else none)
    EndMessage := fun s => (s, none)
    AbortMessage := fun s => { s with nSendSize := 0 } }

/-! ## Theorems -/

section PeerTheorems

variable {CAddress CInv : Type} [DecidableEq CAddress] [DecidableEq CInv]

theorem PushAddress_length_le (IsValid : CAddress → Bool) (r : Nat)
    (n : CNode CAddress CInv) (addr : CAddress)
    (h : n.vAddrToSend.length ≤ MAX_ADDR_TO_SEND) :
    (n.PushAddress IsValid r addr).vAddrToSend.length ≤ MAX_ADDR_TO_SEND := by
  unfold CNode.PushAddress
  split_ifs with h1 h2
  · simpa using h
  · simp only [List.length_append, List.length_singleton]
    omega
  · exact h

theorem PushAddresses_length_le (IsValid : CAddress → Bool) (calls : List (CAddress × Nat)) :
    ∀ n : CNode CAddress CInv, n.vAddrToSend.length ≤ MAX_ADDR_TO_SEND →
      (n.PushAddresses IsValid calls).vAddrToSend.length ≤ MAX_ADDR_TO_SEND := by
  induction calls with
  | nil => intro n h; exact h
  | cons c rest ih =>
    intro n h
    obtain ⟨addr, r⟩ := c
    exact ih _ (PushAddress_length_le IsValid r n addr h)

/-- C1: `PushAddress` keeps a send list of at most 1000 entries at most 1000 entries long,
whatever the address and the random draw; hence a peer that starts with an empty send list
never has more than 1000 entries after any run of `PushAddress` calls. -/
theorem C1_PushAddress_cap (IsValid : CAddress → Bool) (n : CNode CAddress CInv)
    (h : n.vAddrToSend.length ≤ 1000) :
    (∀ (addr : CAddress) (r : Nat),
        (n.PushAddress IsValid r addr).vAddrToSend.length ≤ 1000) ∧
    (∀ (m : CNode CAddress CInv), m.vAddrToSend = [] → ∀ calls : List (CAddress × Nat),
        (m.PushAddresses IsValid calls).vAddrToSend.length ≤ 1000) := by
  refine ⟨fun addr r => PushAddress_length_le IsValid r n addr h, ?_⟩
  intro m hm calls
  exact PushAddresses_length_le IsValid calls m (by simp [hm, MAX_ADDR_TO_SEND])

/-- Witness of C1 on a peer whose send list is full (1000 entries). -/
theorem C1_PushAddress_cap_witness :
    CNode.sampleFull.vAddrToSend.length ≤ 1000 ∧
    (∀ (addr r : Nat),
      (CNode.sampleFull.PushAddress (fun _ => true) r addr).vAddrToSend.length ≤ 1000) :=
  ⟨le_of_eq (List.length_replicate 1000 0),
   (C1_PushAddress_cap (fun _ => true) CNode.sampleFull
      (le_of_eq (List.length_replicate 1000 0))).1⟩

/-- C2: below the cap `PushAddress` leaves the send list unchanged when the address is
invalid or already in `setAddrKnown`, appends the address at the end otherwise, and never
modifies `setAddrKnown`. -/
theorem C2_PushAddress_below_cap (IsValid : CAddress → Bool) (r : Nat)
    (n : CNode CAddress CInv) (addr : CAddress) (h : n.vAddrToSend.length < 1000) :
    ((IsValid addr = false ∨ addr ∈ n.setAddrKnown.queue) →
        (n.PushAddress IsValid r addr).vAddrToSend = n.vAddrToSend) ∧
    ((IsValid addr = true ∧ addr ∉ n.setAddrKnown.queue) →
        (n.PushAddress IsValid r addr).vAddrToSend = n.vAddrToSend ++ [addr]) ∧
    (n.PushAddress IsValid r addr).setAddrKnown = n.setAddrKnown := by
  have hlt : ¬ n.vAddrToSend.length ≥ MAX_ADDR_TO_SEND := by
    simp only [MAX_ADDR_TO_SEND]; omega
  refine ⟨?_, ?_, ?_⟩
  · rintro (hv | hk)
    · simp [CNode.PushAddress, hv]
    · simp [CNode.PushAddress, mruset.count, hk]
  · rintro ⟨hv, hk⟩
    simp [CNode.PushAddress, mruset.count, hv, hk, hlt]
  · unfold CNode.PushAddress
    split_ifs <;> rfl

/-- Witness of C2: a valid address that is not known is appended to the list `[1, 2]`. -/
theorem C2_PushAddress_below_cap_witness :
    (({ CNode.sample with vAddrToSend := [1, 2] } : CNode Nat Nat).PushAddress
        (fun a => decide (a ≠ 0)) 9 7).vAddrToSend = [1, 2, 7] :=
  (C2_PushAddress_below_cap (fun a => decide (a ≠ 0)) 9
    ({ CNode.sample with vAddrToSend := [1, 2] } : CNode Nat Nat) 7 (by decide)).2.1
      ⟨by decide, by decide⟩

/-- C3: at or above the cap, a valid address that is not in `setAddrKnown` replaces the
entry at index `r % size` for every random value `r`: the length is unchanged, that index
holds the address, and every other index keeps its entry. -/
theorem C3_PushAddress_at_cap (IsValid : CAddress → Bool) (r : Nat)
    (n : CNode CAddress CInv) (addr : CAddress) (h : n.vAddrToSend.length ≥ 1000)
    (hv : IsValid addr = true) (hk : addr ∉ n.setAddrKnown.queue) :
    (n.PushAddress IsValid r addr).vAddrToSend.length = n.vAddrToSend.length ∧
    r % n.vAddrToSend.length < n.vAddrToSend.length ∧
    (n.PushAddress IsValid r addr).vAddrToSend[r % n.vAddrToSend.length]? = some addr ∧
    (∀ i : Nat, i ≠ r % n.vAddrToSend.length →
      (n.PushAddress IsValid r addr).vAddrToSend[i]? = n.vAddrToSend[i]?) := by
  have hge : n.vAddrToSend.length ≥ MAX_ADDR_TO_SEND := by
    simp only [MAX_ADDR_TO_SEND]; omega
  have hlt : r % n.vAddrToSend.length < n.vAddrToSend.length :=
    Nat.mod_lt _ (by omega)
  have hval : (n.PushAddress IsValid r addr).vAddrToSend
      = n.vAddrToSend.set (r % n.vAddrToSend.length) addr := by
    simp [CNode.PushAddress, mruset.count, hv, hk, hge]
  rw [hval]
  refine ⟨by simp, hlt, ?_, ?_⟩
  · simp [List.getElem?_set, hlt]
  · intro i hi
    simp [List.getElem?_set, Ne.symm hi]

/-- Witness of C3 on a full list of 1000 zeros with the random value 2003: the list keeps
its 1000 entries and index 3 takes the new address. -/
theorem C3_PushAddress_at_cap_witness :
    (CNode.sampleFull.PushAddress (fun _ => true) 2003 7).vAddrToSend.length
        = CNode.sampleFull.vAddrToSend.length ∧
    (CNode.sampleFull.PushAddress (fun _ => true) 2003 7).vAddrToSend[
        2003 % CNode.sampleFull.vAddrToSend.length]? = some 7 :=
  have h := C3_PushAddress_at_cap (fun _ => true) 2003 CNode.sampleFull 7
    (le_of_eq (List.length_replicate 1000 0).symm) rfl (List.not_mem_nil 7)
  ⟨h.1, h.2.2.1⟩

/-- C4: `PushInventory` leaves `vInventoryToSend` as it is when the item is in
`setInventoryKnown`, appends the item at the end otherwise, and does not modify
`setInventoryKnown`. -/
theorem C4_PushInventory_dedup (n : CNode CAddress CInv) (inv : CInv) :
    (n.PushInventory inv).vInventoryToSend
      = (if inv ∈ n.setInventoryKnown.queue then n.vInventoryToSend
         else n.vInventoryToSend ++ [inv]) ∧
    (n.PushInventory inv).setInventoryKnown = n.setInventoryKnown := by
  unfold CNode.PushInventory mruset.count
  by_cases h : inv ∈ n.setInventoryKnown.queue <;> simp [h]

/-! ### Reference count -/

theorem wrapInt_of_range (v : Int) (h1 : INT_MIN ≤ v) (h2 : v ≤ INT_MAX) : wrapInt v = v := by
  unfold wrapInt
  unfold INT_MIN INT_MAX at *
  omega

/-- C5: the claim fails on the code at the peer with `nRefCount = 0`: one `Release` leaves
the count at -1, below 0, and the assertion `assert(nRefCount >= 0)` of `GetRefCount`
then fails. -/
theorem C5_refcount_release_at_zero :
    0 ≤ CNode.sample.nRefCount ∧
    (CNode.sample.refCalls [RefCall.release]).nRefCount = -1 ∧
    (CNode.sample.refCalls [RefCall.release]).GetRefCount = none := by
  decide

theorem refCalls_count (calls : List RefCall) :
    ∀ (n : CNode CAddress CInv), INT_MIN ≤ n.nRefCount → n.nRefCount ≤ INT_MAX →
      n.noOverflow calls →
      (n.refCalls calls).nRefCount
        = n.nRefCount + (calls.count RefCall.addRef : Int)
            - (calls.count RefCall.release : Int) := by
  induction calls with
  | nil => intro n _ _ _; simp [CNode.refCalls]
  | cons c rest ih =>
    intro n h1 h2 hno
    rw [CNode.refCalls]
    cases c with
    | addRef =>
      have hlt := hno.1 rfl
      have hstep : (n.refCall RefCall.addRef).nRefCount = n.nRefCount + 1 := by
        show wrapInt (n.nRefCount + 1) = n.nRefCount + 1
        exact wrapInt_of_range _ (by omega) (by omega)
      rw [ih _ (by rw [hstep]; omega) (by rw [hstep]; omega) hno.2.2, hstep]
      simp
      omega
    | release =>
      have hgt := hno.2.1 rfl
      have hstep : (n.refCall RefCall.release).nRefCount = n.nRefCount - 1 := by
        show wrapInt (n.nRefCount - 1) = n.nRefCount - 1
        exact wrapInt_of_range _ (by omega) (by omega)
      rw [ih _ (by rw [hstep]; omega) (by rw [hstep]; omega) hno.2.2, hstep]
      simp
      omega

/-- C6 fails as stated: on a peer whose count is `INT_MAX = 2147483647` one `AddRef` leaves
the count at -2147483648, not at the initial count plus one. -/
theorem C6_refcount_counterexample :
    (({ CNode.sample with nRefCount := 2147483647 } : CNode Nat Nat).refCalls
        [RefCall.addRef]).nRefCount = -2147483648 ∧
    (({ CNode.sample with nRefCount := 2147483647 } : CNode Nat Nat).refCalls
        [RefCall.addRef]).nRefCount
      ≠ 2147483647 + ([RefCall.addRef].count RefCall.addRef : Int)
          - ([RefCall.addRef].count RefCall.release : Int) := by
  decide

/-- C6, amended: for a peer whose count is an `int` value and a sequence of `AddRef` and
`Release` calls none of which overflows the count, the final count is the initial count
plus the number of `AddRef` calls minus the number of `Release` calls; `AddRef` returns
the peer it was called on; below `INT_MAX`, `AddRef` adds one and `Release` directly after
it restores the peer; above `INT_MIN`, `Release` subtracts one; and putting the old count
back after either call gives the old peer, so no other field changes. -/
theorem C6_refcount_counts (n : CNode CAddress CInv) (calls : List RefCall)
    (hmin : INT_MIN ≤ n.nRefCount) (hmax : n.nRefCount ≤ INT_MAX)
    (hno : n.noOverflow calls) :
    (n.refCalls calls).nRefCount
      = n.nRefCount + (calls.count RefCall.addRef : Int) - (calls.count RefCall.release : Int) ∧
    n.AddRef.2 = n.AddRef.1 ∧
    (n.nRefCount < INT_MAX → n.AddRef.1.nRefCount = n.nRefCount + 1) ∧
    (INT_MIN < n.nRefCount → n.Release.nRefCount = n.nRefCount - 1) ∧
    (n.nRefCount < INT_MAX → n.AddRef.1.Release = n) ∧
    { n.AddRef.1 with nRefCount := n.nRefCount } = n ∧
    { n.Release with nRefCount := n.nRefCount } = n := by
  have hadd : n.nRefCount < INT_MAX → wrapInt (n.nRefCount + 1) = n.nRefCount + 1 :=
    fun h => wrapInt_of_range _ (by omega) (by omega)
  refine ⟨refCalls_count calls n hmin hmax hno, rfl, hadd, ?_, ?_, rfl, rfl⟩
  · intro h
    exact wrapInt_of_range _ (by omega) (by omega)
  · intro h
    have h1 : (n.AddRef.1.Release).nRefCount = n.nRefCount := by
      show wrapInt (wrapInt (n.nRefCount + 1) - 1) = n.nRefCount
      rw [hadd h]
      have : n.nRefCount + 1 - 1 = n.nRefCount := by omega
      rw [this]
      exact wrapInt_of_range _ hmin hmax
    have h2 : n.AddRef.1.Release = { n with nRefCount := (n.AddRef.1.Release).nRefCount } := rfl
    rw [h2, h1]

/-- Witness of C6 (amended): from count 0, the calls AddRef, AddRef, Release leave the
count at 1. -/
theorem C6_refcount_counts_witness :
    (CNode.sample.refCalls [RefCall.addRef, RefCall.addRef, RefCall.release]).nRefCount
      = 0 + ([RefCall.addRef, RefCall.addRef, RefCall.release].count RefCall.addRef : Int)
          - ([RefCall.addRef, RefCall.addRef, RefCall.release].count RefCall.release : Int) :=
  (C6_refcount_counts CNode.sample [RefCall.addRef, RefCall.addRef, RefCall.release]
    (by decide) (by decide)
    ⟨fun _ => (by decide), fun h => (by cases h),
     fun _ => (by decide), fun h => (by cases h),
     fun h => (by cases h), fun _ => (by decide), trivial⟩).1

/-! ### `CNetMessage::complete` -/

/-- C7: `complete()` is true exactly when the message is in the ReadData state and
`nDataPos` equals `hdr.nMessageSize`; a freshly constructed message is in the ReadHeader
state with a 24-byte header buffer, `nHdrPos = 0`, `nDataPos = 0`, and is not complete; a
message in ReadData state with announced length 0 and `nDataPos = 0` is complete. -/
theorem C7_complete (m : CNetMessage) (hdr0 : CMessageHeader) (nTypeIn nVersionIn : Int) :
    (m.complete = true ↔ (m.in_data = true ∧ m.nDataPos = m.hdr.nMessageSize)) ∧
    ((CNetMessage.new hdr0 nTypeIn nVersionIn).in_data = false ∧
     (CNetMessage.new hdr0 nTypeIn nVersionIn).hdrbuf.size = 24 ∧
     (CNetMessage.new hdr0 nTypeIn nVersionIn).nHdrPos = 0 ∧
     (CNetMessage.new hdr0 nTypeIn nVersionIn).nDataPos = 0 ∧
     (CNetMessage.new hdr0 nTypeIn nVersionIn).complete = false) ∧
    ({ m with in_data := true, nDataPos := 0,
              hdr := { m.hdr with nMessageSize := 0 } } : CNetMessage).complete = true := by
  refine ⟨?_, ⟨rfl, rfl, rfl, rfl, rfl⟩, rfl⟩
  unfold CNetMessage.complete
  cases m.in_data
  · simp
  · simpa using (eq_comm : m.hdr.nMessageSize = m.nDataPos ↔ m.nDataPos = m.hdr.nMessageSize)

end PeerTheorems

/-! ### Message framer -/

theorem memcpyAt_memcpyAt (buf : List Byte) (p : Nat) (a c : List Byte) (hp : p ≤ buf.length) :
    memcpyAt (memcpyAt buf p a) (p + a.length) c = memcpyAt buf p (a ++ c) := by
  unfold memcpyAt
  have h1 : (List.take p buf ++ a ++ List.drop (p + a.length) buf).take (p + a.length)
      = List.take p buf ++ a := by
    rw [List.take_append_of_le_length (by simp [List.length_take, Nat.min_eq_left hp])]
    rw [List.take_of_length_le (by simp [List.length_take, Nat.min_eq_left hp])]
  have h2 : (List.take p buf ++ a ++ List.drop (p + a.length) buf).drop (p + a.length + c.length)
      = List.drop (p + (a ++ c).length) buf := by
    rw [List.drop_append_eq_append_drop]
    simp only [List.length_append, List.length_take, Nat.min_eq_left hp, List.drop_drop]
    rw [List.drop_of_length_le (by simp [List.length_take, Nat.min_eq_left hp])]
    simp only [List.nil_append]
    congr 1
    omega
  rw [h1, h2]
  simp

theorem memcpyAt_length (buf : List Byte) (p : Nat) (a : List Byte)
    (hp : p + a.length ≤ buf.length) : (memcpyAt buf p a).length = buf.length := by
  unfold memcpyAt
  simp only [List.length_append, List.length_take, List.length_drop]
  omega

theorem absorb_header (P : NetParams) (m : CNetMessage) (x : List Byte)
    (h : m.in_data = false) : m.absorb P x = m.readHeader P x := by
  simp [CNetMessage.absorb, h]

theorem absorb_data (P : NetParams) (m : CNetMessage) (x : List Byte)
    (h : m.in_data = true) : m.absorb P x = m.readData x := by
  simp [CNetMessage.absorb, h]

theorem hdrCopy_hdrCopy (m : CNetMessage) (a c : List Byte)
    (hp : m.nHdrPos ≤ m.hdrbuf.vch.length) : (m.hdrCopy a).hdrCopy c = m.hdrCopy (a ++ c) := by
  simp [CNetMessage.hdrCopy, memcpyAt_memcpyAt _ _ _ _ hp, Nat.add_assoc]

theorem dataCopy_dataCopy (m : CNetMessage) (a c : List Byte) :
    (m.dataCopy a).dataCopy c = m.dataCopy (a ++ c) := by
  simp [CNetMessage.dataCopy, Nat.add_assoc]

theorem absorb_append_of_room_le (P : NetParams) (m : CNetMessage) (a b : List Byte)
    (h : m.room ≤ a.length) : m.absorb P (a ++ b) = m.absorb P a := by
  cases hd : m.in_data
  · have hr : 24 - m.nHdrPos ≤ a.length := by simpa [CNetMessage.room, hd] using h
    have h1 : min (24 - m.nHdrPos) (a ++ b).length = 24 - m.nHdrPos := by
      simp only [List.length_append]; omega
    have h2 : min (24 - m.nHdrPos) a.length = 24 - m.nHdrPos := by omega
    rw [absorb_header P m _ hd, absorb_header P m _ hd]
    unfold CNetMessage.readHeader
    simp only [h1, h2, List.take_append_of_le_length hr]
  · have hr : m.hdr.nMessageSize - m.nDataPos ≤ a.length := by
      simpa [CNetMessage.room, hd] using h
    have h1 : min (m.hdr.nMessageSize - m.nDataPos) (a ++ b).length
        = m.hdr.nMessageSize - m.nDataPos := by
      simp only [List.length_append]; omega
    have h2 : min (m.hdr.nMessageSize - m.nDataPos) a.length
        = m.hdr.nMessageSize - m.nDataPos := by omega
    rw [absorb_data P m _ hd, absorb_data P m _ hd]
    unfold CNetMessage.readData
    simp only [h1, h2, List.take_append_of_le_length hr]

theorem absorb_short (P : NetParams) (m : CNetMessage) (a : List Byte)
    (h : a.length < m.room) :
    m.absorb P a = (m.copy a, some a.length) := by
  cases hd : m.in_data
  · have hr : a.length < 24 - m.nHdrPos := by simpa [CNetMessage.room, hd] using h
    have h2 : min (24 - m.nHdrPos) a.length = a.length := by omega
    have h3 : (m.hdrCopy a).nHdrPos < 24 := by
      show m.nHdrPos + a.length < 24
      omega
    rw [absorb_header P m _ hd]
    unfold CNetMessage.readHeader
    simp only [h2, List.take_length, h3, if_true, CNetMessage.copy, hd]
    simp
  · have hr : a.length < m.hdr.nMessageSize - m.nDataPos := by
      simpa [CNetMessage.room, hd] using h
    have h2 : min (m.hdr.nMessageSize - m.nDataPos) a.length = a.length := by omega
    rw [absorb_data P m _ hd]
    unfold CNetMessage.readData
    simp only [h2, List.take_length, CNetMessage.copy, hd, if_true]

theorem copy_inProgress (m : CNetMessage) (a : List Byte)
    (hw : m.inProgress) (h : a.length < m.room) :
    (m.copy a).inProgress ∧ (m.copy a).complete = false ∧
    (m.copy a).room = m.room - a.length := by
  cases hd : m.in_data
  · have hr : a.length < 24 - m.nHdrPos := by simpa [CNetMessage.room, hd] using h
    obtain ⟨hp, hl, h0⟩ := hw.1 hd
    have hlen : (memcpyAt m.hdrbuf.vch m.nHdrPos a).length = 24 := by
      rw [memcpyAt_length _ _ _ (by omega)]; exact hl
    simp only [CNetMessage.copy, hd, CNetMessage.hdrCopy, CNetMessage.inProgress,
      CNetMessage.complete, CNetMessage.room]
    simp [hlen, h0]
    omega
  · have hr : a.length < m.hdr.nMessageSize - m.nDataPos := by
      simpa [CNetMessage.room, hd] using h
    simp only [CNetMessage.copy, hd, CNetMessage.dataCopy, CNetMessage.inProgress,
      CNetMessage.complete, CNetMessage.room]
    simp
    omega

theorem absorb_merge (P : NetParams) (m : CNetMessage) (a b : List Byte)
    (hw : m.inProgress) (h : a.length < m.room) :
    m.absorb P (a ++ b)
      = (((m.copy a).absorb P b).1, (((m.copy a).absorb P b).2).map (fun k => a.length + k)) := by
  cases hd : m.in_data
  · have hr : a.length < 24 - m.nHdrPos := by simpa [CNetMessage.room, hd] using h
    obtain ⟨hp, hl, h0⟩ := hw.1 hd
    have hc : m.copy a = m.hdrCopy a := by simp [CNetMessage.copy, hd]
    have hd1 : (m.hdrCopy a).in_data = false := hd
    have hpos : (m.hdrCopy a).nHdrPos = m.nHdrPos + a.length := rfl
    have h4 : min (24 - m.nHdrPos) (a ++ b).length
        = a.length + min (24 - (m.nHdrPos + a.length)) b.length := by
      simp only [List.length_append]; omega
    rw [hc, absorb_header P m _ hd, absorb_header P _ _ hd1]
    unfold CNetMessage.readHeader
    simp only [hpos, h4, List.take_append, hdrCopy_hdrCopy m _ _ (by omega)]
    split_ifs <;> simp
  · have hc : m.copy a = m.dataCopy a := by simp [CNetMessage.copy, hd]
    have hd1 : (m.dataCopy a).in_data = true := hd
    have hpos : (m.dataCopy a).nDataPos = m.nDataPos + a.length := rfl
    have hsz : (m.dataCopy a).hdr = m.hdr := rfl
    have h4 : min (m.hdr.nMessageSize - m.nDataPos) (a ++ b).length
        = a.length + min (m.hdr.nMessageSize - (m.nDataPos + a.length)) b.length := by
      have hr : a.length < m.hdr.nMessageSize - m.nDataPos := by
        simpa [CNetMessage.room, hd] using h
      simp only [List.length_append]; omega
    rw [hc, absorb_data P m _ hd, absorb_data P _ _ hd1]
    unfold CNetMessage.readData
    simp only [hpos, hsz, h4, List.take_append, dataCopy_dataCopy, Option.map]

theorem hdrParse_true (P : NetParams) (m : CNetMessage) (h : (m.hdrParse P).2 = true) :
    (m.hdrParse P).1.in_data = true ∧ (m.hdrParse P).1.nDataPos = m.nDataPos := by
  unfold CNetMessage.hdrParse at h ⊢
  simp only [] at h ⊢
  split_ifs at h ⊢
  simp_all

theorem absorb_progress (P : NetParams) (m : CNetMessage) (x : List Byte)
    (hw : m.inProgress) (hx : x ≠ []) (k : Nat) (hk : (m.absorb P x).2 = some k) :
    k = min m.room x.length ∧ 1 ≤ k ∧ k ≤ x.length ∧
    ((m.absorb P x).1.complete = false → (m.absorb P x).1.inProgress) := by
  have hxl : 0 < x.length := List.length_pos.mpr hx
  cases hd : m.in_data
  · obtain ⟨hp, hl, h0⟩ := hw.1 hd
    have hroom : m.room = 24 - m.nHdrPos := by simp [CNetMessage.room, hd]
    rw [absorb_header P m _ hd] at hk ⊢
    have hlen : ((m.hdrCopy (x.take (min (24 - m.nHdrPos) x.length))).hdrbuf.vch).length = 24 := by
      show (memcpyAt _ _ _).length = 24
      rw [memcpyAt_length _ _ _ (by simp; omega)]; exact hl
    have hpos : (m.hdrCopy (x.take (min (24 - m.nHdrPos) x.length))).nHdrPos
        = m.nHdrPos + min (24 - m.nHdrPos) x.length := by
      show m.nHdrPos + _ = _
      simp
    unfold CNetMessage.readHeader at hk ⊢
    simp only [] at hk ⊢
    by_cases c1 : (m.hdrCopy (x.take (min (24 - m.nHdrPos) x.length))).nHdrPos < 24
    · simp only [c1, if_true] at hk ⊢
      simp only [Option.some.injEq] at hk
      subst hk
      refine ⟨by rw [hroom], by omega, by omega, ?_⟩
      intro _
      refine ⟨fun _ => ⟨c1, hlen, h0⟩, fun h => ?_⟩
      have : (m.hdrCopy (x.take (min (24 - m.nHdrPos) x.length))).in_data = false := hd
      rw [this] at h
      exact absurd h (by decide)
    · simp only [c1, if_false] at hk ⊢
      cases hf : ((m.hdrCopy (x.take (min (24 - m.nHdrPos) x.length))).hdrParse P).2
      · simp [hf] at hk
      · simp only [hf, if_true, Option.some.injEq] at hk
        subst hk
        obtain ⟨e1, e2⟩ := hdrParse_true P _ hf
        refine ⟨by rw [hroom], by omega, by omega, ?_⟩
        intro hc
        refine ⟨fun h => absurd h (by simp [e1]), fun _ => ?_⟩
        simp only [CNetMessage.complete, e1, Bool.not_true, Bool.false_eq_true, if_false] at hc
        have h1 := beq_eq_false_iff_ne.mp hc
        have h2 : (m.hdrCopy (x.take (min (24 - m.nHdrPos) x.length))).nDataPos = 0 := h0
        rw [e2, h2] at h1 ⊢
        omega
  · have hlt := hw.2 hd
    have hroom : m.room = m.hdr.nMessageSize - m.nDataPos := by simp [CNetMessage.room, hd]
    rw [absorb_data P m _ hd] at hk ⊢
    unfold CNetMessage.readData at hk ⊢
    simp only [Option.some.injEq] at hk
    subst hk
    refine ⟨by rw [hroom], by omega, by omega, ?_⟩
    intro hc
    refine ⟨fun h => absurd (show m.in_data = false from h) (by simp [hd]), fun _ => ?_⟩
    simp only [CNetMessage.complete, CNetMessage.dataCopy, hd, Bool.not_true,
      Bool.false_eq_true, if_false] at hc
    have := beq_eq_false_iff_ne.mp hc
    show m.nDataPos + (x.take _).length < m.hdr.nMessageSize
    simp only [List.length_take] at this ⊢
    omega

theorem new_inProgress (hdr0 : CMessageHeader) (t v : Int) :
    (CNetMessage.new hdr0 t v).inProgress ∧ (CNetMessage.new hdr0 t v).complete = false ∧
    (CNetMessage.new hdr0 t v).room = 24 := by
  refine ⟨⟨fun _ => ⟨?_, rfl, rfl⟩, fun h => ?_⟩, rfl, rfl⟩
  · show (0 : Nat) < 24
    decide
  · exact absurd (show false = true from h) (by decide)

theorem recvCurrent_concat (P : NetParams) (v : Int) (e : List CNetMessage) (m : CNetMessage) :
    recvCurrent P v (e ++ [m])
      = if m.complete then (e ++ [m], CNetMessage.new P.hdr0 P.SER_NETWORK v) else (e, m) := by
  unfold recvCurrent
  simp

theorem recvCurrent_of_complete (P : NetParams) (v : Int) (e : List CNetMessage)
    (h : ∀ m, e.getLast? = some m → m.complete = true) :
    recvCurrent P v e = (e, CNetMessage.new P.hdr0 P.SER_NETWORK v) := by
  unfold recvCurrent
  cases hl : e.getLast? with
  | none => rfl
  | some m => simp [h m hl]

theorem recvStore_ok (P : NetParams) (v : Int) (e : List CNetMessage) (m : CNetMessage)
    (he : ∀ m0, e.getLast? = some m0 → m0.complete = true)
    (hm : m.complete = false → m.inProgress) :
    recvQueueOk P v (recvStore P e m) := by
  unfold recvStore
  split_ifs with hc
  · unfold recvQueueOk
    rw [recvCurrent_of_complete P v e he]
    exact ⟨(new_inProgress _ _ _).1, he⟩
  · unfold recvQueueOk
    rw [recvCurrent_concat]
    cases hcm : m.complete
    · simp only [Bool.false_eq_true, if_false]
      exact ⟨hm hcm, he⟩
    · simp only [if_true]
      refine ⟨(new_inProgress _ _ _).1, ?_⟩
      intro m0 h0
      simp at h0
      rw [← h0]; exact hcm

theorem recvStep_eq (P : NetParams) (v : Int) (q : List CNetMessage) (x : List Byte) :
    recvStep P v q x =
      match ((recvCurrent P v q).2.absorb P x).2 with
      | none => ((recvCurrent P v q).1 ++ [((recvCurrent P v q).2.absorb P x).1], none)
      | some k => (recvStore P (recvCurrent P v q).1 ((recvCurrent P v q).2.absorb P x).1, some k) :=
  rfl

theorem recvStep_progress (P : NetParams) (v : Int) (q : List CNetMessage) (x : List Byte)
    (hq : recvQueueOk P v q) (hx : x ≠ []) (k : Nat) (hk : (recvStep P v q x).2 = some k) :
    1 ≤ k ∧ k ≤ x.length ∧ recvQueueOk P v (recvStep P v q x).1 := by
  rw [recvStep_eq] at hk ⊢
  cases ha : ((recvCurrent P v q).2.absorb P x).2 with
  | none => simp [ha] at hk
  | some k' =>
    simp only [ha] at hk ⊢
    simp only [Option.some.injEq] at hk
    subst hk
    obtain ⟨_, h1, h2, h3⟩ := absorb_progress P _ x hq.1 hx k' ha
    exact ⟨h1, h2, recvStore_ok P v _ _ hq.2 h3⟩

theorem recvStep_append_of_room_le (P : NetParams) (v : Int) (q : List CNetMessage)
    (a b : List Byte) (h : (recvCurrent P v q).2.room ≤ a.length) :
    recvStep P v q (a ++ b) = recvStep P v q a := by
  rw [recvStep_eq, recvStep_eq, absorb_append_of_room_le P _ a b h]

theorem recvStep_short (P : NetParams) (v : Int) (q : List CNetMessage) (a : List Byte)
    (hq : recvQueueOk P v q) (h : a.length < (recvCurrent P v q).2.room) :
    recvStep P v q a
      = ((recvCurrent P v q).1 ++ [(recvCurrent P v q).2.copy a], some a.length) ∧
    recvCurrent P v ((recvCurrent P v q).1 ++ [(recvCurrent P v q).2.copy a])
      = ((recvCurrent P v q).1, (recvCurrent P v q).2.copy a) := by
  obtain ⟨_, hc, _⟩ := copy_inProgress _ a hq.1 h
  constructor
  · rw [recvStep_eq, absorb_short P _ a h]
    simp [recvStore, hc]
  · rw [recvCurrent_concat]
    simp [hc]

theorem recvStep_merge (P : NetParams) (v : Int) (q : List CNetMessage) (a b : List Byte)
    (hq : recvQueueOk P v q) (h : a.length < (recvCurrent P v q).2.room) :
    recvStep P v q (a ++ b)
      = ((recvStep P v ((recvCurrent P v q).1 ++ [(recvCurrent P v q).2.copy a]) b).1,
         ((recvStep P v ((recvCurrent P v q).1 ++ [(recvCurrent P v q).2.copy a]) b).2).map
            (fun k => a.length + k)) := by
  obtain ⟨_, hcur⟩ := recvStep_short P v q a hq h
  rw [recvStep_eq, recvStep_eq, hcur, absorb_merge P _ a b hq.1 h]
  cases ((recvCurrent P v q).2.copy a).absorb P b with
  | mk m' r =>
    cases r <;> rfl

theorem recvLoop_nil (P : NetParams) (v : Int) (f : Nat) (q : List CNetMessage) :
    recvLoop P v f q [] = some (true, q) := by
  cases f <;> rfl

theorem recvLoop_succ (P : NetParams) (v : Int) (f : Nat) (q : List CNetMessage)
    (x : List Byte) (hx : x ≠ []) :
    recvLoop P v (f + 1) q x =
      match (recvStep P v q x).2 with
      | none => some (false, (recvStep P v q x).1)
      | some k => recvLoop P v f (recvStep P v q x).1 (x.drop k) := by
  cases x with
  | nil => exact absurd rfl hx
  | cons b rest =>
    rw [recvLoop]
    rcases hs : recvStep P v q (b :: rest) with ⟨q1, _ | k⟩ <;> rfl

theorem recvLoop_fuel (P : NetParams) (v : Int) (f : Nat) :
    ∀ (g : Nat) (q : List CNetMessage) (x : List Byte), recvQueueOk P v q →
      x.length ≤ f → x.length ≤ g → recvLoop P v f q x = recvLoop P v g q x := by
  induction f with
  | zero =>
    intro g q x _ hf _
    have : x = [] := List.eq_nil_of_length_eq_zero (by omega)
    subst this
    rw [recvLoop_nil, recvLoop_nil]
  | succ f ih =>
    intro g q x hq hf hg
    by_cases hx : x = []
    · subst hx
      rw [recvLoop_nil, recvLoop_nil]
    · have hpos : 0 < x.length := List.length_pos.mpr hx
      obtain ⟨g', rfl⟩ : ∃ g', g = g' + 1 := ⟨g - 1, by omega⟩
      rw [recvLoop_succ P v f q x hx, recvLoop_succ P v g' q x hx]
      cases hs : (recvStep P v q x).2 with
      | none => rfl
      | some k =>
        obtain ⟨h1, h2, h3⟩ := recvStep_progress P v q x hq hx k hs
        exact ih g' _ _ h3 (by simp only [List.length_drop]; omega)
          (by simp only [List.length_drop]; omega)

theorem recvLoop_ok (P : NetParams) (v : Int) (f : Nat) :
    ∀ (q : List CNetMessage) (x : List Byte) (q1 : List CNetMessage), recvQueueOk P v q →
      recvLoop P v f q x = some (true, q1) → recvQueueOk P v q1 := by
  induction f with
  | zero =>
    intro q x q1 hq h
    cases x with
    | nil => simp [recvLoop] at h; rw [← h]; exact hq
    | cons b rest => simp [recvLoop] at h
  | succ f ih =>
    intro q x q1 hq h
    by_cases hx : x = []
    · subst hx
      rw [recvLoop_nil] at h
      simp at h
      rw [← h]; exact hq
    · rw [recvLoop_succ P v f q x hx] at h
      cases hs : (recvStep P v q x).2 with
      | none => simp [hs] at h
      | some k =>
        simp only [hs] at h
        exact ih _ _ q1 (recvStep_progress P v q x hq hx k hs).2.2 h

theorem recvLoop_append (P : NetParams) (v : Int) (f1 : Nat) :
    ∀ (f f2 : Nat) (q : List CNetMessage) (a b : List Byte), recvQueueOk P v q →
      a.length + b.length ≤ f → a.length ≤ f1 → b.length ≤ f2 →
      recvLoop P v f q (a ++ b) =
        match recvLoop P v f1 q a with
        | some (true, q1) => recvLoop P v f2 q1 b
        | r => r := by
  induction f1 with
  | zero =>
    intro f f2 q a b hq hf hf1 hf2
    have : a = [] := List.eq_nil_of_length_eq_zero (by omega)
    subst this
    simp only [List.nil_append, recvLoop_nil]
    exact recvLoop_fuel P v f f2 q b hq (by simpa using hf) hf2
  | succ f1 ih =>
    intro f f2 q a b hq hf hf1 hf2
    by_cases ha : a = []
    · subst ha
      simp only [List.nil_append, recvLoop_nil]
      exact recvLoop_fuel P v f f2 q b hq (by simpa using hf) hf2
    by_cases hb : b = []
    · subst hb
      simp only [List.append_nil]
      rw [recvLoop_fuel P v f (f1 + 1) q a hq (by simpa using hf) hf1]
      rcases hr : recvLoop P v (f1 + 1) q a with _ | ⟨ok, q1⟩
      · rfl
      · cases ok
        · rfl
        · simp only [recvLoop_nil]
    have hapos : 0 < a.length := List.length_pos.mpr ha
    have hab : a ++ b ≠ [] := by simp [ha]
    obtain ⟨f', rfl⟩ : ∃ f', f = f' + 1 := ⟨f - 1, by omega⟩
    rw [recvLoop_succ P v f' q (a ++ b) hab, recvLoop_succ P v f1 q a ha]
    by_cases hroom : (recvCurrent P v q).2.room ≤ a.length
    · rw [recvStep_append_of_room_le P v q a b hroom]
      cases hs : (recvStep P v q a).2 with
      | none => rfl
      | some k =>
        obtain ⟨h1, h2, h3⟩ := recvStep_progress P v q a hq ha k hs
        simp only []
        rw [List.drop_append_of_le_length h2]
        exact ih f' f2 _ _ b h3 (by simp only [List.length_drop]; omega)
          (by simp only [List.length_drop]; omega) hf2
    · have hlt : a.length < (recvCurrent P v q).2.room := by omega
      obtain ⟨hsa, hcur⟩ := recvStep_short P v q a hq hlt
      have hq1 : recvQueueOk P v ((recvCurrent P v q).1 ++ [(recvCurrent P v q).2.copy a]) := by
        have := (recvStep_progress P v q a hq ha a.length (by rw [hsa])).2.2
        rwa [hsa] at this
      rw [recvStep_merge P v q a b hq hlt, hsa]
      simp only [List.drop_length, recvLoop_nil]
      have hbpos : 0 < b.length := List.length_pos.mpr hb
      obtain ⟨f2', rfl⟩ : ∃ f2', f2 = f2' + 1 := ⟨f2 - 1, by omega⟩
      rw [recvLoop_succ P v f2' _ b hb]
      cases hs : (recvStep P v ((recvCurrent P v q).1 ++ [(recvCurrent P v q).2.copy a]) b).2 with
      | none => rfl
      | some k =>
        obtain ⟨h1, h2, h3⟩ := recvStep_progress P v _ b hq1 hb k hs
        simp only [Option.map]
        have hdrop : (a ++ b).drop (a.length + k) = b.drop k := by
          rw [List.drop_append]
        rw [hdrop]
        exact recvLoop_fuel P v f' f2' _ _ h3 (by simp only [List.length_drop]; omega)
          (by simp only [List.length_drop]; omega)

theorem ReadLE32_WriteLE32 (n : Nat) (h : n < 2 ^ 32) : ReadLE32 (WriteLE32 n) = n := by
  simp only [ReadLE32, WriteLE32, List.getD_cons_zero, List.getD_cons_succ]
  omega

theorem WriteLE32_length (n : Nat) : (WriteLE32 n).length = 4 := rfl

theorem pchCommand_length (w : WireMessage) (h : w.command.length ≤ 12) :
    w.pchCommand.length = 12 := by
  simp only [WireMessage.pchCommand, List.length_append, List.length_replicate]
  omega

theorem checksum_lt (P : NetParams) (x : List Byte) : P.checksum x < 2 ^ 32 :=
  Nat.mod_lt _ (by decide)

theorem Unserialize_Serialize (h : CMessageHeader) (h1 : h.pchMessageStart.length = 4)
    (h2 : h.pchCommand.length = 12) (h3 : h.nMessageSize < 2 ^ 32) (h4 : h.nChecksum < 2 ^ 32) :
    CMessageHeader.Unserialize h.Serialize = h := by
  obtain ⟨ms, cmd, sz, ck⟩ := h
  simp only at h1 h2 h3 h4
  have e1 : (ms ++ cmd ++ WriteLE32 sz ++ WriteLE32 ck).take 4 = ms := by
    rw [List.append_assoc, List.append_assoc, List.take_append_of_le_length (by omega),
      List.take_of_length_le (by omega)]
  have e2 : ((ms ++ cmd ++ WriteLE32 sz ++ WriteLE32 ck).drop 4).take 12 = cmd := by
    rw [List.append_assoc, List.append_assoc, List.drop_append_of_le_length (by omega),
      List.drop_of_length_le (by omega), List.nil_append,
      List.take_append_of_le_length (by omega), List.take_of_length_le (by omega)]
  have e3 : ((ms ++ cmd ++ WriteLE32 sz ++ WriteLE32 ck).drop 16).take 4 = WriteLE32 sz := by
    rw [List.append_assoc, List.drop_append_of_le_length (by simp; omega),
      List.drop_of_length_le (by simp; omega), List.nil_append,
      List.take_append_of_le_length (by simp [WriteLE32_length]),
      List.take_of_length_le (by simp [WriteLE32_length])]
  have e4 : ((ms ++ cmd ++ WriteLE32 sz ++ WriteLE32 ck).drop 20).take 4 = WriteLE32 ck := by
    rw [List.drop_append_of_le_length (by simp [WriteLE32_length]; omega),
      List.drop_of_length_le (by simp [WriteLE32_length]; omega), List.nil_append,
      List.take_of_length_le (by simp [WriteLE32_length])]
  simp only [CMessageHeader.Unserialize, CMessageHeader.Serialize, e1, e2, e3, e4,
    ReadLE32_WriteLE32 _ h3, ReadLE32_WriteLE32 _ h4]

theorem Serialize_length (h : CMessageHeader) (h1 : h.pchMessageStart.length = 4)
    (h2 : h.pchCommand.length = 12) : h.Serialize.length = 24 := by
  simp only [CMessageHeader.Serialize, List.length_append, WriteLE32_length, h1, h2]

theorem header_facts (P : NetParams) (w : WireMessage) (hmagic : P.pchMessageStart.length = 4)
    (hw : w.valid) :
    (w.header P).Serialize.length = 24 ∧
    CMessageHeader.Unserialize (w.header P).Serialize = w.header P := by
  have hc := pchCommand_length w hw.1
  have hs : w.payload.length < 2 ^ 32 := by
    have := hw.2
    simp only [MAX_PROTOCOL_MESSAGE_LENGTH] at this
    omega
  exact ⟨Serialize_length _ hmagic hc,
    Unserialize_Serialize _ hmagic hc hs (checksum_lt P _)⟩

theorem readHeader_new (P : NetParams) (v : Int) (w : WireMessage)
    (hmagic : P.pchMessageStart.length = 4) (hw : w.valid) :
    (CNetMessage.new P.hdr0 P.SER_NETWORK v).readHeader P (w.header P).Serialize
      = (CNetMessage.ofWireHeader P v w, some 24) := by
  obtain ⟨hlen, hrt⟩ := header_facts P w hmagic hw
  have hcopy : (CNetMessage.new P.hdr0 P.SER_NETWORK v).hdrCopy (w.header P).Serialize
      = { CNetMessage.ofWireHeader P v w with in_data := false, hdr := P.hdr0 } := by
    simp only [CNetMessage.hdrCopy, CNetMessage.new, CDataStream.new, CDataStream.resize,
      memcpyAt, CNetMessage.ofWireHeader, hlen]
    simp
  have hsz : ¬ (w.header P).nMessageSize > MAX_PROTOCOL_MESSAGE_LENGTH := by
    have := hw.2
    simp only [WireMessage.header]
    omega
  have hparse : ({ CNetMessage.ofWireHeader P v w with in_data := false, hdr := P.hdr0 } :
      CNetMessage).hdrParse P = (CNetMessage.ofWireHeader P v w, true) := by
    simp only [CNetMessage.hdrParse, CNetMessage.ofWireHeader, hrt]
    have hm : (w.header P).pchMessageStart = P.pchMessageStart := rfl
    simp [hm, hsz]
  unfold CNetMessage.readHeader
  have hmin : min (24 - (CNetMessage.new P.hdr0 P.SER_NETWORK v).nHdrPos)
      (w.header P).Serialize.length = 24 := by
    rw [hlen]; rfl
  simp only [hmin]
  rw [List.take_of_length_le (by omega), hcopy, hparse]
  simp [CNetMessage.ofWireHeader]

theorem readData_ofWireHeader (P : NetParams) (v : Int) (w : WireMessage) :
    (CNetMessage.ofWireHeader P v w).readData w.payload
      = (CNetMessage.ofWire P v w, some w.payload.length) := by
  simp [CNetMessage.readData, CNetMessage.ofWireHeader, CNetMessage.dataCopy,
    CNetMessage.ofWire, WireMessage.header]

theorem ofWire_complete (P : NetParams) (v : Int) (w : WireMessage) :
    (CNetMessage.ofWire P v w).complete = true := by
  simp [CNetMessage.complete, CNetMessage.ofWire, WireMessage.header]

theorem recvStore_ofWire (P : NetParams) (v : Int) (q : List CNetMessage) (w : WireMessage) :
    recvStore P q (CNetMessage.ofWire P v w) = q ++ [CNetMessage.ofWire P v w] := by
  simp [recvStore, CNetMessage.ofWire, WireMessage.header]

theorem recvLoop_encode (P : NetParams) (v : Int) (q : List CNetMessage) (w : WireMessage)
    (hmagic : P.pchMessageStart.length = 4) (hw : w.valid)
    (hq : ∀ m, q.getLast? = some m → m.complete = true) :
    recvLoop P v (w.encode P).length q (w.encode P)
      = some (true, q ++ [CNetMessage.ofWire P v w]) := by
  obtain ⟨hlen, _⟩ := header_facts P w hmagic hw
  have hcur := recvCurrent_of_complete P v q hq
  have hqok : recvQueueOk P v q := by
    unfold recvQueueOk
    rw [hcur]
    exact ⟨(new_inProgress _ _ _).1, hq⟩
  have hH : (w.header P).Serialize ≠ [] := by
    intro h; rw [h] at hlen; simp at hlen
  -- the turn that reads the header
  have hstep1 : recvStep P v q (w.header P).Serialize
      = (recvStore P q (CNetMessage.ofWireHeader P v w), some 24) := by
    rw [recvStep_eq, hcur]
    simp only []
    rw [absorb_header P _ _ (by rfl), readHeader_new P v w hmagic hw]
  have hloop1 : recvLoop P v 24 q (w.header P).Serialize
      = some (true, recvStore P q (CNetMessage.ofWireHeader P v w)) := by
    rw [recvLoop_succ P v 23 q _ hH, hstep1]
    simp only []
    rw [List.drop_of_length_le (by omega), recvLoop_nil]
  unfold WireMessage.encode
  rw [recvLoop_append P v 24 _ w.payload.length q _ _ hqok (by simp) (by omega) (le_refl _),
    hloop1]
  simp only []
  by_cases hp : w.payload = []
  · rw [hp, recvLoop_nil]
    have : CNetMessage.ofWireHeader P v w = CNetMessage.ofWire P v w := by
      simp [CNetMessage.ofWireHeader, CNetMessage.ofWire, hp]
    rw [this, recvStore_ofWire]
  · have hppos : 0 < w.payload.length := List.length_pos.mpr hp
    have hinc : (CNetMessage.ofWireHeader P v w).complete = false := by
      simpa [CNetMessage.complete, CNetMessage.ofWireHeader, WireMessage.header] using hp
    have hst : recvStore P q (CNetMessage.ofWireHeader P v w)
        = q ++ [CNetMessage.ofWireHeader P v w] := by
      simp [recvStore, hinc]
    have hcur2 : recvCurrent P v (q ++ [CNetMessage.ofWireHeader P v w])
        = (q, CNetMessage.ofWireHeader P v w) := by
      rw [recvCurrent_concat]; simp [hinc]
    have hstep2 : recvStep P v (q ++ [CNetMessage.ofWireHeader P v w]) w.payload
        = (q ++ [CNetMessage.ofWire P v w], some w.payload.length) := by
      rw [recvStep_eq, hcur2]
      simp only []
      rw [absorb_data P _ _ (by rfl), readData_ofWireHeader, recvStore_ofWire]
    obtain ⟨g, hg⟩ : ∃ g, w.payload.length = g + 1 := ⟨w.payload.length - 1, by omega⟩
    rw [hst]
    conv_lhs => rw [hg]
    rw [recvLoop_succ P v g _ _ hp, hstep2]
    simp only [List.drop_length, recvLoop_nil]

theorem getLast_map_ofWire (P : NetParams) (v : Int) (q : List CNetMessage)
    (ws : List WireMessage) (hq : ∀ m, q.getLast? = some m → m.complete = true) :
    ∀ m, (q ++ ws.map (CNetMessage.ofWire P v)).getLast? = some m → m.complete = true := by
  intro m hm
  rcases List.eq_nil_or_concat ws with rfl | ⟨ws', w, rfl⟩
  · simp at hm; exact hq m hm
  · simp [List.getLast?_append] at hm
    rw [← hm]; exact ofWire_complete P v w

theorem recvLoop_wireStream (P : NetParams) (v : Int) (ws : List WireMessage)
    (hmagic : P.pchMessageStart.length = 4) (hws : ∀ w ∈ ws, w.valid) :
    ∀ (q : List CNetMessage), (∀ m, q.getLast? = some m → m.complete = true) →
      recvLoop P v (wireStream P ws).length q (wireStream P ws)
        = some (true, q ++ ws.map (CNetMessage.ofWire P v)) := by
  induction ws with
  | nil => intro q _; simp [wireStream, recvLoop_nil]
  | cons w rest ih =>
    intro q hq
    have hcur := recvCurrent_of_complete P v q hq
    have hqok : recvQueueOk P v q := by
      unfold recvQueueOk
      rw [hcur]
      exact ⟨(new_inProgress _ _ _).1, hq⟩
    have hcons : wireStream P (w :: rest) = w.encode P ++ wireStream P rest := by
      simp [wireStream]
    rw [hcons, recvLoop_append P v (w.encode P).length _ (wireStream P rest).length q _ _ hqok
      (by simp) (le_refl _) (le_refl _),
      recvLoop_encode P v q w hmagic (hws w (List.mem_cons_self _ _)) hq]
    simp only []
    have hq' : ∀ m, (q ++ [CNetMessage.ofWire P v w]).getLast? = some m → m.complete = true :=
      getLast_map_ofWire P v q [w] hq
    rw [ih (fun w' hw' => hws w' (List.mem_cons_of_mem _ hw')) _ hq']
    simp

section PeerFramer

variable {CAddress CInv : Type}

theorem ReceiveChunks_eq_flatten (P : NetParams) (chunks : List (List Byte)) :
    ∀ (n : CNode CAddress CInv), recvQueueOk P n.nRecvVersion n.vRecvMsg →
      n.ReceiveChunks P chunks = n.ReceiveMsgBytes P chunks.flatten := by
  induction chunks with
  | nil =>
    intro n _
    simp [CNode.ReceiveChunks, CNode.ReceiveMsgBytes, recvLoop_nil]
  | cons c rest ih =>
    intro n hq
    rw [CNode.ReceiveChunks]
    simp only [List.flatten_cons]
    unfold CNode.ReceiveMsgBytes
    rw [recvLoop_append P n.nRecvVersion c.length _ rest.flatten.length n.vRecvMsg c
      rest.flatten hq (by simp) (le_refl _) (le_refl _)]
    rcases hr : recvLoop P n.nRecvVersion c.length n.vRecvMsg c with _ | ⟨ok, q1⟩
    · rfl
    · cases ok
      · rfl
      · simp only []
        have hq1 := recvLoop_ok P n.nRecvVersion c.length n.vRecvMsg c q1 hq hr
        rw [ih { n with vRecvMsg := q1 } hq1]
        rfl

end PeerFramer

section FramerTheorems

variable {CAddress CInv : Type}

/-- C8: when the concatenation of the chunks is a stream of framed messages (each with a
command of at most 12 bytes and a payload of at most 2 MiB, the magic being 4 bytes),
feeding the chunks in order to `ReceiveMsgBytes` on a peer whose receive queue holds no
in-progress message returns true every time and appends to `vRecvMsg` exactly the entries
of those messages, complete and in order, whatever the split into chunks; on the empty
queue of a new peer the queue is exactly those messages. -/
theorem C8_framer_chunking (P : NetParams) (n : CNode CAddress CInv) (ws : List WireMessage)
    (chunks : List (List Byte)) (hmagic : P.pchMessageStart.length = 4)
    (hws : ∀ w ∈ ws, w.valid)
    (hq : ∀ m, n.vRecvMsg.getLast? = some m → m.complete = true)
    (hchunks : chunks.flatten = wireStream P ws) :
    n.ReceiveChunks P chunks
      = some (true, { n with
          vRecvMsg := n.vRecvMsg ++ ws.map (CNetMessage.ofWire P n.nRecvVersion) }) ∧
    (∀ m ∈ ws.map (CNetMessage.ofWire P n.nRecvVersion), m.complete = true) ∧
    (ws.map (CNetMessage.ofWire P n.nRecvVersion)).map CNetMessage.toWire
      = ws.map (fun w => (w.pchCommand, w.payload)) := by
  have hqok : recvQueueOk P n.nRecvVersion n.vRecvMsg := by
    unfold recvQueueOk
    rw [recvCurrent_of_complete P n.nRecvVersion n.vRecvMsg hq]
    exact ⟨(new_inProgress _ _ _).1, hq⟩
  refine ⟨?_, ?_, ?_⟩
  · rw [ReceiveChunks_eq_flatten P chunks n hqok, hchunks]
    unfold CNode.ReceiveMsgBytes
    rw [recvLoop_wireStream P n.nRecvVersion ws hmagic hws n.vRecvMsg hq]
  · intro m hm
    obtain ⟨w, _, rfl⟩ := List.mem_map.mp hm
    exact ofWire_complete P n.nRecvVersion w
  · simp [CNetMessage.toWire, CNetMessage.ofWire, WireMessage.header, Function.comp_def]

/-- Witness of C8, the framer round-trip scenario: the 32-byte "ping" message fed one byte
at a time to a new peer yields one ping message. -/
theorem C8_framer_chunking_witness :
    (pingMessage.encode NetParams.sample).length = 32 ∧
    CNode.sample.ReceiveChunks NetParams.sample
        ((pingMessage.encode NetParams.sample).map (fun b => [b]))
      = some (true, { CNode.sample with
          vRecvMsg := [CNetMessage.ofWire NetParams.sample 0 pingMessage] }) :=
  ⟨by decide,
   (C8_framer_chunking NetParams.sample CNode.sample [pingMessage]
      ((pingMessage.encode NetParams.sample).map (fun b => [b])) (by decide)
      (by intro w hw
          rw [List.mem_singleton] at hw
          subst hw
          exact ⟨by decide, by decide⟩)
      (by intro m hm; exact absurd hm (by simp [CNode.sample])) (by decide)).1⟩

end FramerTheorems

/-! ### Ban list and misbehaviour score -/

section BanTheorems

variable {CAddress CNetAddr CSubNet CInv : Type} [DecidableEq CSubNet]

theorem IsBanned_iff (ops : NetAddrOps CAddress CNetAddr CSubNet) (now : Int)
    (c : CConnman CSubNet) (ip : CNetAddr) :
    c.IsBanned ops now ip = true ↔
      ∃ e ∈ c.setBanned, ops.Match e.1 ip = true ∧ e.2 > now := by
  simp [CConnman.IsBanned, List.any_eq_true]

theorem IsBanned_Ban (ops : NetAddrOps CAddress CNetAddr CSubNet) (now : Int)
    (c : CConnman CSubNet) (addr : CNetAddr) (bantimeoffset t : Int)
    (hm : ops.Match (ops.toSubNet addr) addr = true) (ht : t < now + bantimeoffset) :
    (c.Ban ops now addr bantimeoffset).IsBanned ops t addr = true := by
  rw [IsBanned_iff]
  exact ⟨(ops.toSubNet addr, now + bantimeoffset), by
    simp [CConnman.Ban, CConnman.BanSubNet, banmap_t.assign], hm, ht⟩

/-- C9: `Misbehaving(howmuch)` adds `howmuch` to `nMisbehavior`; when the resulting score
is 100 or more the call returns true, `fDisconnect` is set and the remote address is banned
(for the next 24 hours); below 100 the call returns false, `fDisconnect` is as before and
the ban list is unchanged. -/
theorem C9_Misbehaving (ops : NetAddrOps CAddress CNetAddr CSubNet) (now : Int)
    (c : CConnman CSubNet) (n : CNode CAddress CInv) (howmuch : Int)
    (hm : ∀ a, ops.Match (ops.toSubNet a) a = true) :
    (n.Misbehaving ops now c howmuch).2.1.nMisbehavior = n.nMisbehavior + howmuch ∧
    (n.nMisbehavior + howmuch ≥ 100 →
      (n.Misbehaving ops now c howmuch).1 = true ∧
      (n.Misbehaving ops now c howmuch).2.1.fDisconnect = true ∧
      ∀ t, t < now + 60 * 60 * 24 →
        (n.Misbehaving ops now c howmuch).2.2.IsBanned ops t (ops.toNetAddr n.addr) = true) ∧
    (n.nMisbehavior + howmuch < 100 →
      (n.Misbehaving ops now c howmuch).1 = false ∧
      (n.Misbehaving ops now c howmuch).2.1.fDisconnect = n.fDisconnect ∧
      (n.Misbehaving ops now c howmuch).2.2 = c) := by
  refine ⟨?_, ?_, ?_⟩
  · unfold CNode.Misbehaving
    simp only []
    split_ifs <;> rfl
  · intro h
    have hval : n.Misbehaving ops now c howmuch
        = (true, { n with nMisbehavior := n.nMisbehavior + howmuch, fDisconnect := true },
            c.Ban ops now (ops.toNetAddr n.addr) DEFAULT_MISBEHAVING_BANTIME) := by
      unfold CNode.Misbehaving
      simp only [h, if_true]
    rw [hval]
    refine ⟨rfl, rfl, ?_⟩
    intro t ht
    exact IsBanned_Ban ops now c _ _ t (hm _) ht
  · intro h
    have hval : n.Misbehaving ops now c howmuch
        = (false, { n with nMisbehavior := n.nMisbehavior + howmuch }, c) := by
      unfold CNode.Misbehaving
      simp only [ge_iff_le, not_le.mpr h, if_false]
    rw [hval]
    exact ⟨rfl, rfl, rfl⟩

/-- Witness of C9: a peer at score 90 that misbehaves by 10 is disconnected and banned. -/
theorem C9_Misbehaving_witness :
    (({ CNode.sample with nMisbehavior := 90, addr := 7 } : CNode Nat Nat).Misbehaving
        NetAddrOps.sample 1000 CConnman.sample 10).1 = true ∧
    (({ CNode.sample with nMisbehavior := 90, addr := 7 } : CNode Nat Nat).Misbehaving
        NetAddrOps.sample 1000 CConnman.sample 10).2.1.fDisconnect = true ∧
    (({ CNode.sample with nMisbehavior := 90, addr := 7 } : CNode Nat Nat).Misbehaving
        NetAddrOps.sample 1000 CConnman.sample 10).2.2.IsBanned NetAddrOps.sample 5000 7
        = true :=
  have h := (C9_Misbehaving NetAddrOps.sample 1000 CConnman.sample
    ({ CNode.sample with nMisbehavior := 90, addr := 7 } : CNode Nat Nat) 10
    (fun a => by simp [NetAddrOps.sample])).2.1 (by decide)
  ⟨h.1, h.2.1, h.2.2 5000 (by decide)⟩

end BanTheorems

/-! ### Buffer sizes, peer ids, slot budgets, queued receive bytes -/

theorem toUnsignedInt_of_lt (v : Int) (h0 : 0 ≤ v) (h1 : v < 2 ^ 32) :
    (toUnsignedInt v : Int) = v := by
  unfold toUnsignedInt
  rw [Int.emod_eq_of_lt h0 h1]
  exact Int.toNat_of_nonneg h0

/-- C11 fails as stated: with `-maxreceivebuffer=1` and `-maxsendbuffer=1` the two
functions return 1000, not 1 x 1024. -/
theorem C11_buffer_sizes_counterexample :
    ReceiveFloodSize (GetArgOf [("-maxreceivebuffer", 1), ("-maxsendbuffer", 1)]) = 1000 ∧
    SendBufferSize (GetArgOf [("-maxreceivebuffer", 1), ("-maxsendbuffer", 1)]) = 1000 ∧
    (1000 : Nat) ≠ 1 * 1024 := by
  decide

/-- C11, amended: the options count units of 1000 bytes.  With `-maxreceivebuffer = n`
`ReceiveFloodSize()` returns `1000 * n` converted to `unsigned int`, which is `n x 1000`
when that is below `2 ^ 32`, and likewise `SendBufferSize()` for `-maxsendbuffer = n`;
without the options they return 5000 x 1000 and 1000 x 1000. -/
theorem C11_buffer_sizes (mapArgs : List (String × Int)) (n : Int) :
    (mapArgs.lookup "-maxreceivebuffer" = some n →
      ReceiveFloodSize (GetArgOf mapArgs) = toUnsignedInt (1000 * n) ∧
      (0 ≤ n → 1000 * n < 2 ^ 32 → (ReceiveFloodSize (GetArgOf mapArgs) : Int) = 1000 * n)) ∧
    (mapArgs.lookup "-maxsendbuffer" = some n →
      SendBufferSize (GetArgOf mapArgs) = toUnsignedInt (1000 * n) ∧
      (0 ≤ n → 1000 * n < 2 ^ 32 → (SendBufferSize (GetArgOf mapArgs) : Int) = 1000 * n)) ∧
    (mapArgs.lookup "-maxreceivebuffer" = none →
      ReceiveFloodSize (GetArgOf mapArgs) = 5000 * 1000) ∧
    (mapArgs.lookup "-maxsendbuffer" = none →
      SendBufferSize (GetArgOf mapArgs) = 1000 * 1000) := by
  refine ⟨?_, ?_, ?_, ?_⟩
  · intro h
    have hv : ReceiveFloodSize (GetArgOf mapArgs) = toUnsignedInt (1000 * n) := by
      simp [ReceiveFloodSize, GetArgOf, h]
    refine ⟨hv, fun h0 h1 => ?_⟩
    rw [hv]
    exact toUnsignedInt_of_lt _ (by omega) h1
  · intro h
    have hv : SendBufferSize (GetArgOf mapArgs) = toUnsignedInt (1000 * n) := by
      simp [SendBufferSize, GetArgOf, h]
    refine ⟨hv, fun h0 h1 => ?_⟩
    rw [hv]
    exact toUnsignedInt_of_lt _ (by omega) h1
  · intro h
    simp [ReceiveFloodSize, GetArgOf, h, toUnsignedInt]
  · intro h
    simp [SendBufferSize, GetArgOf, h, toUnsignedInt]

/-- Witness of C11 (amended): `-maxreceivebuffer=2000` gives 2,000,000 bytes, and no
`-maxsendbuffer` gives 1,000,000 bytes. -/
theorem C11_buffer_sizes_witness :
    (ReceiveFloodSize (GetArgOf [("-maxreceivebuffer", 2000)]) : Int) = 1000 * 2000 ∧
    SendBufferSize (GetArgOf [("-maxreceivebuffer", 2000)]) = 1000 * 1000 :=
  ⟨((C11_buffer_sizes [("-maxreceivebuffer", 2000)] 2000).1 (by decide)).2
      (by decide) (by decide),
   (C11_buffer_sizes [("-maxreceivebuffer", 2000)] 2000).2.2.2 (by decide)⟩

/-- C12 fails as stated: the value `2 ^ 31` of a 64-bit counter is not a value of
`NodeId`. -/
theorem C12_NodeId_counterexample :
    (0 : Int) ≤ 2147483648 ∧ (2147483648 : Int) < 2 ^ 63 ∧ ¬ NodeId.holds 2147483648 := by
  unfold NodeId.holds INT_MIN INT_MAX
  decide

/-- C12, amended: a peer's id is an `int`: `GetId` returns the member `id`, and `NodeId`
holds exactly the integers from `-2 ^ 31` to `2 ^ 31 - 1`, so the values of a counter that
increases from 0 are values of `NodeId`, each a different one, exactly as long as they are
below `2 ^ 31`. -/
theorem C12_NodeId_range {CAddress CInv : Type} (n : CNode CAddress CInv) (v : Int) (k : Nat) :
    n.GetId = n.id ∧
    (NodeId.holds v ↔ (-(2 ^ 31) ≤ v ∧ v < 2 ^ 31)) ∧
    (NodeId.holds (k : Int) ↔ k < 2 ^ 31) := by
  unfold NodeId.holds INT_MIN INT_MAX
  refine ⟨rfl, ?_, ?_⟩
  · constructor <;> intro h <;> constructor <;> omega
  · constructor
    · intro h; omega
    · intro h; constructor <;> omega

/-- C13 fails as stated: a default-constructed `CConnman::Options` has `nMaxOutbound = 0`
and `nMaxAddnode = 0`, not 64 and 8. -/
theorem C13_slot_budgets_counterexample :
    CConnman.Options.default.nMaxOutbound ≠ MAX_OUTBOUND_CONNECTIONS ∧
    CConnman.Options.default.nMaxAddnode ≠ MAX_ADDNODE_CONNECTIONS := by
  decide

/-- C13, amended: `MAX_OUTBOUND_CONNECTIONS = 64` and `MAX_ADDNODE_CONNECTIONS = 8`; a
default-constructed `CConnman::Options` has `nMaxOutbound = 0` and `nMaxAddnode = 0`, as
every other member. -/
theorem C13_slot_budgets :
    MAX_OUTBOUND_CONNECTIONS = 64 ∧ MAX_ADDNODE_CONNECTIONS = 8 ∧
    CConnman.Options.default.nMaxOutbound = 0 ∧ CConnman.Options.default.nMaxAddnode = 0 ∧
    CConnman.Options.default
      = { nMaxConnections := 0, nMaxOutbound := 0, nMaxAddnode := 0, nMaxFeeler := 0,
          nBestHeight := 0, nSendBufferMaxSize := 0, nReceiveFloodSize := 0,
          nMaxOutboundTimeframe := 0, nMaxOutboundLimit := 0 } :=
  ⟨rfl, rfl, rfl, rfl, rfl⟩

theorem foldl_total (g : CNetMessage → Nat) (l : List CNetMessage) :
    ∀ a : Nat, a < 2 ^ 32 →
      l.foldl (fun total msg => (total + g msg) % 2 ^ 32) a = (a + (l.map g).sum) % 2 ^ 32 := by
  induction l with
  | nil =>
    intro a ha
    simp only [List.foldl_nil, List.map_nil, List.sum_nil, Nat.add_zero]
    exact (Nat.mod_eq_of_lt ha).symm
  | cons x rest ih =>
    intro a _
    rw [List.foldl_cons, ih _ (Nat.mod_lt _ (by decide))]
    simp only [List.map_cons, List.sum_cons, Nat.mod_add_mod, Nat.add_assoc]

/-- C14: `GetTotalRecvSize()` is the sum over the receive queue of 24 plus the size of the
data buffer `vRecv` of each entry, reduced modulo `2 ^ 32`; it is 0 for an empty queue; an
entry added at the back adds its 24 + size whether it is complete or in progress; and the
peer, hence the queue, is unchanged by the call. -/
theorem C14_GetTotalRecvSize {CAddress CInv : Type} (n : CNode CAddress CInv)
    (m : CNetMessage) :
    n.GetTotalRecvSize.1 = ((n.vRecvMsg.map (fun msg => 24 + msg.vRecv.size)).sum) % 2 ^ 32 ∧
    ({ n with vRecvMsg := [] } : CNode CAddress CInv).GetTotalRecvSize.1 = 0 ∧
    ({ n with vRecvMsg := n.vRecvMsg ++ [m] } : CNode CAddress CInv).GetTotalRecvSize.1
      = (n.GetTotalRecvSize.1 + (24 + m.vRecv.size)) % 2 ^ 32 ∧
    n.GetTotalRecvSize.2 = n := by
  have key : ∀ q : List CNetMessage,
      q.foldl (fun total msg => (total + (msg.vRecv.size + 24)) % 2 ^ 32) 0
        = ((q.map (fun msg => 24 + msg.vRecv.size)).sum) % 2 ^ 32 := by
    intro q
    rw [foldl_total (fun msg => msg.vRecv.size + 24) q 0 (by decide)]
    simp [Nat.add_comm]
  refine ⟨key _, rfl, ?_, rfl⟩
  show (n.vRecvMsg ++ [m]).foldl _ 0 = (n.vRecvMsg.foldl _ 0 + (24 + m.vRecv.size)) % 2 ^ 32
  rw [List.foldl_append]
  simp [Nat.add_comm]

/-! ### `PushMessage` and `PushRequest` -/

section PushTheorems

variable {CAddress CInv σ E A : Type}

theorem serializeArgs_calls (env : MsgEnv σ E A) (args : List A) :
    ∀ s : σ, (serializeArgs env args s).calls <+: args.map MsgCall.Serialize ∧
      ((serializeArgs env args s).thrown = none →
        (serializeArgs env args s).calls = args.map MsgCall.Serialize) := by
  induction args with
  | nil => intro s; exact ⟨List.prefix_refl _, fun _ => rfl⟩
  | cons a rest ih =>
    intro s
    rw [serializeArgs]
    rcases h : env.Serialize a s with ⟨s1, _ | e⟩
    · simp only [List.map_cons]
      obtain ⟨h1, h2⟩ := ih s1
      exact ⟨(List.prefix_cons_inj _).mpr h1, fun hn => by rw [h2 hn]⟩
    · simp only [List.map_cons]
      refine ⟨?_, fun hn => by simp at hn⟩
      exact ⟨rest.map MsgCall.Serialize, rfl⟩

theorem pushMessageTry_calls (env : MsgEnv σ E A) (pszCommand : String) (args : List A)
    (s : σ) :
    (pushMessageTry env pszCommand args s).calls
        <+: MsgCall.BeginMessage pszCommand :: args.map MsgCall.Serialize
              ++ [MsgCall.EndMessage] ∧
    ((pushMessageTry env pszCommand args s).thrown = none →
      (pushMessageTry env pszCommand args s).calls
        = MsgCall.BeginMessage pszCommand :: args.map MsgCall.Serialize
            ++ [MsgCall.EndMessage]) := by
  unfold pushMessageTry
  rcases hb : env.BeginMessage pszCommand s with ⟨s1, _ | e⟩
  · simp only []
    obtain ⟨h1, h2⟩ := serializeArgs_calls env args s1
    rcases hs : (serializeArgs env args s1).thrown with _ | e
    · simp only []
      rw [h2 hs]
      exact ⟨List.prefix_refl _, fun _ => rfl⟩
    · simp only []
      refine ⟨?_, fun hn => by simp at hn⟩
      rw [List.cons_append]
      exact (List.prefix_cons_inj _).mpr (h1.trans (List.prefix_append _ _))
  · simp only []
    refine ⟨?_, fun hn => by simp at hn⟩
    exact ⟨args.map MsgCall.Serialize ++ [MsgCall.EndMessage], rfl⟩

end PushTheorems

section RequestTheorems

variable {CAddress CInv E A : Type}

theorem find_filter_of_imp (p q : Nat × CRequestTracker → Bool)
    (l : List (Nat × CRequestTracker)) (h : ∀ x, p x = true → q x = true) :
    (l.filter q).find? p = l.find? p := by
  induction l with
  | nil => rfl
  | cons x rest ih =>
    by_cases hq : q x = true
    · rw [List.filter_cons_of_pos hq, List.find?_cons, List.find?_cons, ih]
    · have hp : p x = false := by
        cases hpx : p x
        · rfl
        · exact absurd (h x hpx) hq
      rw [List.filter_cons_of_neg hq, List.find?_cons, hp, ih]

theorem mapRequestsFind_assign (m : List (Nat × CRequestTracker)) (key k : Nat)
    (value : CRequestTracker) :
    mapRequestsFind (mapRequestsAssign m key value) key = some value ∧
    (k ≠ key → mapRequestsFind (mapRequestsAssign m key value) k = mapRequestsFind m k) := by
  constructor
  · simp [mapRequestsFind, mapRequestsAssign]
  · intro hk
    unfold mapRequestsFind mapRequestsAssign
    have hne : decide (key = k) = false := by simp [Ne.symm hk]
    rw [List.find?_cons]
    simp only [hne]
    rw [find_filter_of_imp]
    intro x hx
    have : x.1 = k := of_decide_eq_true hx
    simp [this, hk]

/-- C16: `PushRequest` stores `CRequestTracker(fn, param1)` under the key `hashReply` that
was drawn, leaves every other key of `mapRequests` and every other member of the peer as
they were, and then calls `PushMessage` with the command and the arguments `hashReply,
a1, .., an`: when nothing throws the calls are `BeginMessage(cmd)`, the serialization of
`hashReply`, those of the arguments of the caller in order, and `EndMessage`.  The stored
tracker is null exactly when `fn` is `NULL`. -/
theorem C16_PushRequest (env : MsgEnv (CNode CAddress CInv) E (Nat ⊕ A)) (hashReply key : Nat)
    (n : CNode CAddress CInv) (pszCommand : String) (args : List A)
    (fn param1 : Option Nat) (hkey : key ≠ hashReply) :
    mapRequestsFind (n.storeRequest hashReply fn param1).mapRequests hashReply
      = some (CRequestTracker.new fn param1) ∧
    mapRequestsFind (n.storeRequest hashReply fn param1).mapRequests key
      = mapRequestsFind n.mapRequests key ∧
    ({ n.storeRequest hashReply fn param1 with mapRequests := n.mapRequests } = n) ∧
    n.PushRequest env hashReply pszCommand args fn param1
      = (n.storeRequest hashReply fn param1).PushMessage env pszCommand
          (Sum.inl hashReply :: args.map Sum.inr) ∧
    ((n.PushRequest env hashReply pszCommand args fn param1).thrown = none →
      (n.PushRequest env hashReply pszCommand args fn param1).calls
        = MsgCall.BeginMessage pszCommand :: MsgCall.Serialize (Sum.inl hashReply)
            :: args.map (fun a => MsgCall.Serialize (Sum.inr a)) ++ [MsgCall.EndMessage]) ∧
    ((CRequestTracker.new fn param1).IsNull = true ↔ fn = none) := by
  obtain ⟨h1, h2⟩ := mapRequestsFind_assign n.mapRequests hashReply key
    (CRequestTracker.new fn param1)
  refine ⟨h1, h2 hkey, rfl, rfl, ?_, ?_⟩
  · intro hn
    unfold CNode.PushRequest at hn ⊢
    unfold CNode.PushMessage at hn ⊢
    rcases ht : (pushMessageTry env pszCommand (Sum.inl hashReply :: args.map Sum.inr)
        (n.storeRequest hashReply fn param1)).thrown with _ | e
    · simp only [ht]
      rw [(pushMessageTry_calls env pszCommand _ _).2 ht]
      simp [Function.comp_def]
    · simp [ht] at hn
  · simp [CRequestTracker.IsNull, CRequestTracker.new]

/-- Witness of C16: on a peer that holds a tracker under key 5, a request with the drawn
key 9 and a null callback stores a null tracker under 9, keeps the entry of 5, and makes
the calls Begin, serialize 9, serialize the argument 1, End. -/
theorem C16_PushRequest_witness :
    mapRequestsFind (({ CNode.sample with mapRequests := [(5, CRequestTracker.new (some 1) none)] }
        : CNode Nat Nat).storeRequest 9 none none).mapRequests 5
      = some (CRequestTracker.new (some 1) none) ∧
    (({ CNode.sample with mapRequests := [(5, CRequestTracker.new (some 1) none)] }
        : CNode Nat Nat).PushRequest MsgEnv.sample 9 "getdata" [1] none none).calls
      = [MsgCall.BeginMessage "getdata", MsgCall.Serialize (Sum.inl 9),
         MsgCall.Serialize (Sum.inr 1), MsgCall.EndMessage] :=
  have h := C16_PushRequest MsgEnv.sample 9 5
    ({ CNode.sample with mapRequests := [(5, CRequestTracker.new (some 1) none)] }
      : CNode Nat Nat) "getdata" [1] none none (by decide)
  ⟨h.2.1, h.2.2.2.2.1 (by decide)⟩

/-! ### Fulfilled requests -/

theorem hasRequestLoop_iff (l : List String) (s : String) :
    hasRequestLoop l s = true ↔ s ∈ l := by
  induction l with
  | nil => simp [hasRequestLoop]
  | cons x rest ih =>
    rw [hasRequestLoop]
    by_cases h : x = s
    · simp [h]
    · simp [h, ih, Ne.symm h]

theorem hasRequestLoop_eq (l : List String) (s : String) :
    hasRequestLoop l s = decide (s ∈ l) := by
  cases h : hasRequestLoop l s
  · have : ¬ s ∈ l := fun hm => by
      rw [(hasRequestLoop_iff l s).mpr hm] at h
      exact absurd h (by decide)
    simp [this]
  · simp [(hasRequestLoop_iff l s).mp h]

theorem clearRequestLoop_eq_erase (l : List String) (s : String) :
    clearRequestLoop l s = l.erase s := by
  induction l with
  | nil => rfl
  | cons x rest ih =>
    rw [clearRequestLoop]
    by_cases h : x = s
    · simp [h]
    · simp [h, ih, List.erase_cons_tail]

theorem clearRequestLoop_split (pre post : List String) (s : String) (h : s ∉ pre) :
    clearRequestLoop (pre ++ s :: post) s = pre ++ post := by
  induction pre with
  | nil => simp [clearRequestLoop]
  | cons x rest ih =>
    have hx : x ≠ s := fun e => h (by simp [e])
    have hr : s ∉ rest := fun e => h (List.mem_cons_of_mem _ e)
    simp [clearRequestLoop, hx, ih hr]

theorem FulfilledRequest_of_has (n : CNode CAddress CInv) (s : String)
    (h : n.HasFulfilledRequest s = true) : n.FulfilledRequest s = n := by
  unfold CNode.FulfilledRequest
  simp [h]

theorem filter_clearRequestLoop (l : List String) (s : String) :
    (clearRequestLoop l s).filter (fun x => decide (x ≠ s))
      = l.filter (fun x => decide (x ≠ s)) := by
  induction l with
  | nil => rfl
  | cons x rest ih =>
    rw [clearRequestLoop]
    by_cases h : x = s
    · simp [h]
    · have hx : decide (x ≠ s) = true := decide_eq_true h
      simp only [if_neg (show ¬ (x == s) = true from by simpa using h)]
      rw [List.filter_cons, List.filter_cons, ih]

/-- C17: `FulfilledRequest(s)` appends `s` at the end exactly when `s` is not in the list;
afterwards `HasFulfilledRequest(s)` is true; a second call changes nothing; the old list is
an initial part of the new one, so the other entries and their order are unchanged and
`HasFulfilledRequest(t)` is unchanged for `t != s`; a duplicate-free list stays
duplicate-free. -/
theorem C17_FulfilledRequest (n : CNode CAddress CInv) (s t : String) :
    (n.HasFulfilledRequest s = true ↔ s ∈ n.vecRequestsFulfilled) ∧
    (n.FulfilledRequest s).vecRequestsFulfilled
      = (if s ∈ n.vecRequestsFulfilled then n.vecRequestsFulfilled
         else n.vecRequestsFulfilled ++ [s]) ∧
    (n.FulfilledRequest s).HasFulfilledRequest s = true ∧
    (n.FulfilledRequest s).FulfilledRequest s = n.FulfilledRequest s ∧
    n.vecRequestsFulfilled <+: (n.FulfilledRequest s).vecRequestsFulfilled ∧
    (n.FulfilledRequest s).vecRequestsFulfilled.filter (fun x => decide (x ≠ s))
      = n.vecRequestsFulfilled.filter (fun x => decide (x ≠ s)) ∧
    (t ≠ s → (n.FulfilledRequest s).HasFulfilledRequest t = n.HasFulfilledRequest t) ∧
    (n.vecRequestsFulfilled.Nodup → (n.FulfilledRequest s).vecRequestsFulfilled.Nodup) ∧
    ({ n.FulfilledRequest s with vecRequestsFulfilled := n.vecRequestsFulfilled } = n) := by
  have hiff : n.HasFulfilledRequest s = true ↔ s ∈ n.vecRequestsFulfilled :=
    hasRequestLoop_iff _ _
  by_cases hs : s ∈ n.vecRequestsFulfilled
  · have hval : n.FulfilledRequest s = n := FulfilledRequest_of_has n s (hiff.mpr hs)
    rw [hval]
    refine ⟨hiff, by simp [hs], hiff.mpr hs, hval, List.prefix_refl _, rfl, fun _ => rfl,
      fun h => h, rfl⟩
  · have hfalse : n.HasFulfilledRequest s = false := by
      cases h : n.HasFulfilledRequest s
      · rfl
      · exact absurd (hiff.mp h) hs
    have hval : n.FulfilledRequest s
        = { n with vecRequestsFulfilled := n.vecRequestsFulfilled ++ [s] } := by
      unfold CNode.FulfilledRequest
      simp [hfalse]
    have hhas : (n.FulfilledRequest s).HasFulfilledRequest s = true := by
      rw [hval]
      exact (hasRequestLoop_iff _ _).mpr (by simp)
    refine ⟨hiff, by rw [hval]; simp [hs], hhas, ?_, ?_, ?_, ?_, ?_, ?_⟩
    · exact FulfilledRequest_of_has _ s hhas
    · rw [hval]; exact List.prefix_append _ _
    · rw [hval]; simp [List.filter_append]
    · intro hts
      rw [hval]
      show hasRequestLoop _ t = hasRequestLoop _ t
      rw [hasRequestLoop_eq, hasRequestLoop_eq]
      simp [hts]
    · intro hnd
      rw [hval]
      exact List.Nodup.append hnd (List.nodup_singleton s) (by simpa using hs)
    · rw [hval]

/-- Witness of C17 on the list "a", "b": `FulfilledRequest("c")` gives "a", "b", "c", which
is duplicate-free, and `FulfilledRequest("a")` changes nothing. -/
theorem C17_FulfilledRequest_witness :
    (({ CNode.sample with vecRequestsFulfilled := ["a", "b"] } : CNode Nat Nat).FulfilledRequest
      "c").vecRequestsFulfilled.Nodup ∧
    (({ CNode.sample with vecRequestsFulfilled := ["a", "b"] } : CNode Nat Nat).FulfilledRequest
      "c").HasFulfilledRequest "a"
      = ({ CNode.sample with vecRequestsFulfilled := ["a", "b"] } :
          CNode Nat Nat).HasFulfilledRequest "a" :=
  have h := C17_FulfilledRequest
    ({ CNode.sample with vecRequestsFulfilled := ["a", "b"] } : CNode Nat Nat) "c" "a"
  ⟨h.2.2.2.2.2.2.2.1 (by decide), h.2.2.2.2.2.2.1 (by decide)⟩

/-- C18: `ClearFulfilledRequest(s)` removes the first occurrence of `s` and nothing else:
a list `pre ++ s :: post` with `s` not in `pre` becomes `pre ++ post`, a list without `s`
is unchanged, and the entries other than `s` keep their order; `HasFulfilledRequest(t)` is
unchanged for `t != s`; on a duplicate-free list `HasFulfilledRequest(s)` is false
afterwards; and on a list without `s`, `ClearFulfilledRequest(s)` after
`FulfilledRequest(s)` gives back the peer. -/
theorem C18_ClearFulfilledRequest (n : CNode CAddress CInv) (s t : String)
    (pre post : List String) :
    (n.ClearFulfilledRequest s).vecRequestsFulfilled = n.vecRequestsFulfilled.erase s ∧
    (n.vecRequestsFulfilled = pre ++ s :: post → s ∉ pre →
      (n.ClearFulfilledRequest s).vecRequestsFulfilled = pre ++ post) ∧
    (s ∉ n.vecRequestsFulfilled → n.ClearFulfilledRequest s = n) ∧
    (n.ClearFulfilledRequest s).vecRequestsFulfilled.filter (fun x => decide (x ≠ s))
      = n.vecRequestsFulfilled.filter (fun x => decide (x ≠ s)) ∧
    (t ≠ s → (n.ClearFulfilledRequest s).HasFulfilledRequest t = n.HasFulfilledRequest t) ∧
    (n.vecRequestsFulfilled.Nodup → (n.ClearFulfilledRequest s).HasFulfilledRequest s = false) ∧
    (s ∉ n.vecRequestsFulfilled → (n.FulfilledRequest s).ClearFulfilledRequest s = n) ∧
    ({ n.ClearFulfilledRequest s with vecRequestsFulfilled := n.vecRequestsFulfilled } = n) := by
  have herase : (n.ClearFulfilledRequest s).vecRequestsFulfilled
      = n.vecRequestsFulfilled.erase s := clearRequestLoop_eq_erase _ _
  refine ⟨herase, ?_, ?_, ?_, ?_, ?_, ?_, rfl⟩
  · intro hl hp
    show clearRequestLoop n.vecRequestsFulfilled s = _
    rw [hl]
    exact clearRequestLoop_split pre post s hp
  · intro hs
    have : clearRequestLoop n.vecRequestsFulfilled s = n.vecRequestsFulfilled := by
      rw [clearRequestLoop_eq_erase, List.erase_of_not_mem hs]
    unfold CNode.ClearFulfilledRequest
    rw [this]
  · exact filter_clearRequestLoop _ _
  · intro hts
    show hasRequestLoop _ t = hasRequestLoop _ t
    rw [hasRequestLoop_eq, hasRequestLoop_eq, herase]
    have : t ∈ n.vecRequestsFulfilled.erase s ↔ t ∈ n.vecRequestsFulfilled :=
      List.mem_erase_of_ne hts
    simp [this]
  · intro hnd
    show hasRequestLoop _ s = false
    rw [hasRequestLoop_eq, herase]
    simp [hnd.mem_erase_iff]
  · intro hs
    have hfalse : n.HasFulfilledRequest s = false := by
      cases h : n.HasFulfilledRequest s
      · rfl
      · exact absurd ((hasRequestLoop_iff _ _).mp h) hs
    have hval : n.FulfilledRequest s
        = { n with vecRequestsFulfilled := n.vecRequestsFulfilled ++ [s] } := by
      unfold CNode.FulfilledRequest
      simp [hfalse]
    rw [hval]
    unfold CNode.ClearFulfilledRequest
    have : clearRequestLoop (n.vecRequestsFulfilled ++ [s]) s = n.vecRequestsFulfilled := by
      have := clearRequestLoop_split n.vecRequestsFulfilled [] s hs
      simpa using this
    simp only [this]

/-- Witness of C18 on the list "a", "b", "a": `ClearFulfilledRequest("a")` removes the first
"a" only and leaves "b", "a"; on the duplicate-free list "a", "b" no "a" is left. -/
theorem C18_ClearFulfilledRequest_witness :
    (({ CNode.sample with vecRequestsFulfilled := ["a", "b", "a"] } :
        CNode Nat Nat).ClearFulfilledRequest "a").vecRequestsFulfilled = [] ++ ["b", "a"] ∧
    (({ CNode.sample with vecRequestsFulfilled := ["a", "b"] } :
        CNode Nat Nat).ClearFulfilledRequest "a").HasFulfilledRequest "a" = false :=
  ⟨(C18_ClearFulfilledRequest
      ({ CNode.sample with vecRequestsFulfilled := ["a", "b", "a"] } : CNode Nat Nat)
      "a" "b" [] ["b", "a"]).2.1 rfl (List.not_mem_nil _),
   (C18_ClearFulfilledRequest
      ({ CNode.sample with vecRequestsFulfilled := ["a", "b"] } : CNode Nat Nat)
      "a" "b" [] []).2.2.2.2.2.1 (by decide)⟩

end RequestTheorems

end Neutron
